import Mathlib

/-!
Shallow embedding of the osm2geojson geometry-assembly engine
(`osm2geojson/main.py`) and proofs about its specification claims.

Conventions of the embedding:
* Python dicts with optional keys become structures with `Option` fields.
* A raised Python exception becomes `Except.error`; since mutations made
  before a raise persist in Python, errors carry the state at the raise
  point (`Except (String × St)`).
* The mutable element graph (`data['elements']`, aliased by the refs
  index) becomes an explicit store `List OsmEl` threaded through every
  function; marking an element `used` is an in-place update of the store.
* The external planar-geometry kernel (shapely) is not part of the
  repository; its operations (`linemerge`, `unary_union`, `union`,
  `difference`, `is_valid`, `buffer(0)`, `Polygon(...)`, `orient`) are
  modelled as an abstract record of functions (`Kernel` / `MPKernel`),
  per the external-interface section of the specification.
* Logging calls that carry no data flow are recorded in a diagnostics
  list where a claim refers to them, and dropped otherwise.
* Python float coordinates are modelled as integers; no claim performs
  coordinate arithmetic, coordinates are only copied and compared.
-/

/-- A lat/lon coordinate pair (Python dicts with keys lat and lon). -/
structure Coord where
  lon : Int
  lat : Int
deriving DecidableEq, Repr

/-- OSM tags: a Python dict from tag name to value, as an association
list; lookup takes the first binding, matching unique-key dicts. -/
abbrev Tags := List (String × String)

/-- Dict lookup in a tag set (`tags[k]` / `k in tags`). -/
def lookupTag (ts : Tags) (k : String) : Option String :=
  match ts.find? (fun p => p.1 == k) with
  | some p => some p.2
  | none => none

/-- One entry of the polygon-features rule table:
`\x7bkey, polygon: all|whitelist|blacklist, values\x7d`. -/
structure Rule where
  key : String
  polygon : String
  values : List String
deriving DecidableEq, Repr

/-- The rule table (ordered list of rules). -/
abbrev PolyFeatures := List Rule

/-- The area-exception table: tag name to value to boolean override. -/
abbrev AreaKeys := List (String × List (String × Bool))

/-- Module-level default tables (`_default_area_keys`,
`_default_polygon_features`), loaded from data files at import time;
the data files are configuration, so the defaults are parameters here. -/
structure Config where
  defAK : AreaKeys
  defPF : PolyFeatures
deriving Repr

/-- Python truthiness resolution `table or default`: an absent (None)
or empty table falls back to the default. -/
def resolveAK (u : Option AreaKeys) (d : AreaKeys) : AreaKeys :=
  match u with
  | none => d
  | some t => if t.isEmpty then d else t

/-- Python truthiness resolution for the rule table. -/
def resolvePF (u : Option PolyFeatures) (d : PolyFeatures) : PolyFeatures :=
  match u with
  | none => d
  | some t => if t.isEmpty then d else t

/-- A relation member record `\x7btype, ref, role\x7d` (plus the `used` mark
the conversion writes into it, and the inline geometry Overpass can
attach to members). Member records never carry nested members. -/
structure MemberRec where
  mtype : String
  ref : Option Int := none
  role : Option String := none
  used : Option Int := none
  geometry : Option (List Coord) := none
deriving DecidableEq, Repr

/-- An OSM element as a Python dict: node / way / relation fields are
all optional except the type tag. -/
structure OsmEl where
  etype : String
  id : Option Int := none
  lat : Option Int := none
  lon : Option Int := none
  tags : Option Tags := none
  nodes : Option (List Int) := none
  geometry : Option (List Coord) := none
  center : Option Coord := none
  members : Option (List MemberRec) := none
  ref : Option Int := none
  used : Option Int := none
  timestamp : Option String := none
  user : Option String := none
  uid : Option Int := none
  version : Option Int := none
deriving DecidableEq, Repr

/-- View of a member record as an element dict, as Python passes member
dicts to `way_to_shape` / `element_to_shape` unchanged. -/
def MemberRec.toEl (m : MemberRec) : OsmEl :=
  { etype := m.mtype, ref := m.ref, used := m.used, geometry := m.geometry }

/-- Properties attached to an output shape (`get_element_props` with the
default key list: type, id, tags, nodes, timestamp, user, uid, version;
a key is copied when present on the element). -/
structure ElProps where
  etype : String
  id : Option Int := none
  tags : Option Tags := none
  nodes : Option (List Int) := none
  timestamp : Option String := none
  user : Option String := none
  uid : Option Int := none
  version : Option Int := none
deriving DecidableEq, Repr

/-- Translation of `get_element_props` (default keys). -/
def get_element_props (el : OsmEl) : ElProps :=
  { etype := el.etype, id := el.id, tags := el.tags, nodes := el.nodes,
    timestamp := el.timestamp, user := el.user, uid := el.uid,
    version := el.version }

/-- An item of a geometry collection: a polygon (exterior ring plus
holes) or some non-polygon geometry (only the polygon/non-polygon
distinction of collection items is ever inspected, by
`to_multipolygon`). -/
inductive GItem where
  | gpoly : List Coord → List (List Coord) → GItem
  | gother : GItem
deriving DecidableEq, Repr

/-- The shapely geometry taxonomy used by the converter; `isinstance`
checks in the Python code become constructor matches. -/
inductive Geo where
  | point : Coord → Geo
  | lineString : List Coord → Geo
  | polygon : List Coord → List (List Coord) → Geo
  | multiPolygon : List (List Coord × List (List Coord)) → Geo
  | multiLineString : List (List Coord) → Geo
  | collection : List GItem → Geo
deriving DecidableEq, Repr

/-- A produced shape: geometry plus properties
(`\x7b'shape': ..., 'properties': ...\x7d`). -/
structure ShapeRec where
  shape : Geo
  properties : ElProps
deriving DecidableEq, Repr

/-- Translation of `is_same_coords`. -/
def is_same_coords (a b : Coord) : Bool :=
  a.lat == b.lat && a.lon == b.lon

/-- Translation of `is_exception`: scan the element tags in order; the
first tag name present in the area-exception table decides, true iff
the tag value is present there and mapped to true. -/
def isExceptionGo (ak : AreaKeys) (full : Tags) : Tags → Bool
  | [] => false
  | (k, _) :: rest =>
    match ak.find? (fun p => p.1 == k) with
    | some entry =>
      match lookupTag full k with
      | some v =>
        match entry.2.find? (fun p => p.1 == v) with
        | some vb => vb.2
        | none => false
      | none => false
    | none => isExceptionGo ak full rest

/-- Translation of `is_exception` (accessing `node['tags']` raises
KeyError when absent; call sites guard on tag presence). -/
def is_exception (cfg : Config) (ak? : Option AreaKeys) (el : OsmEl) :
    Except String Bool :=
  let ak := resolveAK ak? cfg.defAK
  match el.tags with
  | none => .error "KeyError: tags"
  | some ts => .ok (isExceptionGo ak ts ts)

/-- Core loop of `is_geometry_polygon_without_exceptions`: scan rules in
order; a rule whose key is present in the tags decides when its mode is
all (true), whitelist with the tag value among the rule values (true),
or blacklist (the tag value not among the rule values); otherwise the
scan continues with the remaining rules, and the default is false. -/
def isGPWEcore (ts : Tags) : PolyFeatures → Bool
  | [] => false
  | r :: rest =>
    match lookupTag ts r.key with
    | none => isGPWEcore ts rest
    | some v =>
      if r.polygon == "all" then true
      else if r.polygon == "whitelist" && r.values.contains v then true
      else if r.polygon == "blacklist" then !(r.values.contains v)
      else isGPWEcore ts rest

/-- Translation of `is_geometry_polygon_without_exceptions` (accessing
`node['tags']` raises KeyError when absent). -/
def is_geometry_polygon_without_exceptions (cfg : Config)
    (pf? : Option PolyFeatures) (el : OsmEl) : Except String Bool :=
  let pf := resolvePF pf? cfg.defPF
  match el.tags with
  | none => .error "KeyError: tags"
  | some ts => .ok (isGPWEcore ts pf)

/-- Final step of `is_geometry_polygon`: the rule table, then the
area-exception filter applied when the rules said polygon. -/
def igpRuleStep (cfg : Config) (ak? : Option AreaKeys)
    (pf? : Option PolyFeatures) (el : OsmEl) (ts : Tags) :
    Except String Bool :=
  let pf := resolvePF pf? cfg.defPF
  if isGPWEcore ts pf then
    match is_exception cfg ak? el with
    | .ok b => .ok (!b)
    | .error e => .error e
  else .ok false

/-- Step of `is_geometry_polygon` after the inline-geometry check: the
node-id closure check, then the rule-table consultation. -/
def igpAfterGeom (cfg : Config) (ak? : Option AreaKeys)
    (pf? : Option PolyFeatures) (el : OsmEl) (ts : Tags) :
    Except String Bool :=
  match el.nodes with
  | some ns =>
    match ns.head?, ns.getLast? with
    | some n0, some n1 =>
      if n0 != n1 then .ok false
      else igpRuleStep cfg ak? pf? el ts
    | _, _ => .error "IndexError: nodes"
  | none => igpRuleStep cfg ak? pf? el ts

/-- Translation of `is_geometry_polygon`: tag overrides (area=no,
area=yes, type=multipolygon), the open-ring checks on inline geometry
and on the node-id list (indexing the first and last entry, which
raises IndexError on an empty list), then the rule table filtered by
the area-exception table. -/
def is_geometry_polygon (cfg : Config) (ak? : Option AreaKeys)
    (pf? : Option PolyFeatures) (el : OsmEl) : Except String Bool :=
  match el.tags with
  | none => .ok false
  | some ts =>
    if lookupTag ts "area" == some "no" then .ok false
    else if lookupTag ts "area" == some "yes" then .ok true
    else if lookupTag ts "type" == some "multipolygon" then .ok true
    else
      match el.geometry with
      | some g =>
        match g.head?, g.getLast? with
        | some c0, some c1 =>
          if !(is_same_coords c0 c1) then .ok false
          else igpAfterGeom cfg ak? pf? el ts
        | _, _ => .error "IndexError: geometry"
      | none => igpAfterGeom cfg ak? pf? el ts

/-- Abstract geometry kernel for `_convert_shapes_to_multipolygon`,
generic in the geometry type `G` and the member-line type `L`: the run
merger `_convert_lines_to_multipolygon` (which can fail softly with
`none`, Python None, or raise), validity, union and difference are
supplied by the planar-geometry collaborator. -/
structure MPKernel (G : Type) (L : Type) where
  linesToMP : List L → Except String (Option G)
  isValid : G → Bool
  unionG : G → G → G
  differenceG : G → G → G

/-- One member shape entry `(role, line geometry, member ref id)`. -/
abbrev RoleShape (L : Type) := String × L × Int

/-- Maximal runs of consecutive entries with the same role
(`itertools.groupby(shapes, lambda s: s[0])`). -/
def groupRuns {L : Type} : List (RoleShape L) → List (List (RoleShape L))
  | [] => []
  | x :: xs =>
    match groupRuns xs with
    | [] => [[x]]
    | [] :: rest => [x] :: [] :: rest
    | (y :: ys) :: rest =>
      if x.1 == y.1 then (x :: y :: ys) :: rest
      else [x] :: (y :: ys) :: rest

/-- Role of a run (the groupby key: the common role of its entries). -/
def runRole {L : Type} : List (RoleShape L) → String
  | [] => ""
  | s :: _ => s.1

/-- Build the intermediate groups `[(role, geom, ids)]`: each run of
consecutive same-role members is merged by the kernel into one geometry
(possibly None); a raise during merging propagates. -/
def buildGroups {G L : Type} (K : MPKernel G L) (shapes : List (RoleShape L)) :
    Except String (List (String × Option G × List Int)) :=
  (groupRuns shapes).mapM (fun run => do
    let g ← K.linesToMP (run.map (fun s => s.2.1))
    pure (runRole run, g, run.map (fun s => s.2.2)))

/-- The base-selection loop: index and merged geometry of the first
group whose role is outer (the loop with `break`). -/
def findOuterRun {G : Type} :
    List (String × Option G × List Int) → Option (Nat × Option G)
  | [] => none
  | (role, g, _) :: rest =>
    if role == "outer" then some (0, g)
    else match findOuterRun rest with
      | some (i, g') => some (i + 1, g')
      | none => none

/-- The combination loop over the remaining groups: every group other
than the base is combined into the accumulator in source order, by
difference for role inner and union otherwise; combining with a group
whose merged geometry is None raises (shapely union/difference with
None). `i` is the index of the first group of the remaining list. -/
def combineRest {G L : Type} (K : MPKernel G L) (b : Nat) :
    Nat → G → List (String × Option G × List Int) → Except String G
  | _, acc, [] => .ok acc
  | i, acc, (role, g?, _) :: rest =>
    if i == b then combineRest K b (i + 1) acc rest
    else
      match g? with
      | none => .error "TypeError: union/difference with None"
      | some g =>
        combineRest K b (i + 1)
          (if role == "inner" then K.differenceG acc g else K.unionG acc g)
          rest

/-- Translation of `_convert_shapes_to_multipolygon`: empty member list
fails; group members into same-role runs and merge each run; the first
outer group is the base (fail with None when there is no outer group;
raise AttributeError when its merged geometry is None, from
`None.is_valid`; fail with None when it is invalid); then fold the
remaining groups into the base in source order. The Python
`if multipolygon is None` check after each union/difference is dead
code (shapely never returns None there) and is not modelled. -/
def convert_shapes_to_multipolygon {G L : Type} (K : MPKernel G L)
    (shapes : List (RoleShape L)) (raiseOn : Bool) :
    Except String (Option G) :=
  if shapes.length < 1 then
    if raiseOn then .error "Failed to create multipolygon (Empty)" else .ok none
  else do
    let groups ← buildGroups K shapes
    match findOuterRun groups with
    | none =>
      if raiseOn then
        .error "Failed to create multipolygon. Shape with outer role not found"
      else .ok none
    | some (_, none) => .error "AttributeError: NoneType has no is_valid"
    | some (b, some base) =>
      if !(K.isValid base) then
        if raiseOn then
          .error "Failed to create multipolygon. Base shape with role outer is invalid"
        else .ok none
      else do
        let r ← combineRest K b 0 base groups
        pure (some r)

/-- The concrete geometry-kernel operations of the external planar
library used by the rest of the pipeline, over the `Geo` taxonomy:
line merging, n-ary union, binary union/difference, validity, zero
buffer repair, polygon construction from a coordinate ring (None models
a constructor raise), and ring orientation of one polygon. -/
structure Kernel where
  linemerge : Geo → Geo
  unaryUnion : List Geo → Geo
  unionG : Geo → Geo → Geo
  differenceG : Geo → Geo → Geo
  isValid : Geo → Bool
  buffer0 : Geo → Geo
  mkPolygon : List Coord → Option Geo
  orientP : List Coord × List (List Coord) → List Coord × List (List Coord)

/-- Translation of `fix_invalid_polygon`: apply a zero-width buffer to
an invalid geometry (the info logging is dropped). -/
def fix_invalid_polygon (K : Kernel) (p : Geo) : Geo :=
  if !(K.isValid p) then K.buffer0 p else p

/-- Translation of `to_multipolygon`: coerce a geometry into a
multipolygon; a collection keeps only its polygon members, a polygon is
wrapped, anything else fails (None in non-strict mode, raise in strict
mode). -/
def to_multipolygon (obj : Geo) (raiseOn : Bool) : Except String (Option Geo) :=
  match obj with
  | .multiPolygon ps => .ok (some (.multiPolygon ps))
  | .collection items =>
    .ok (some (.multiPolygon (items.filterMap (fun it =>
      match it with
      | .gpoly e h => some (e, h)
      | .gother => none))))
  | .polygon e h => .ok (some (.multiPolygon [(e, h)]))
  | _ =>
    if raiseOn then .error "Failed to convert to multipolygon" else .ok none

/-- Construct `MultiLineString(lines)`: the shapely constructor raises
when a part is not a line. -/
def mkMultiLineString (lines : List Geo) : Except String (List (List Coord)) :=
  lines.mapM (fun g =>
    match g with
    | .lineString cs => .ok cs
    | _ => .error "TypeError: MultiLineString part is not a line")

/-- Per-line polygonization loop of `_convert_lines_to_multipolygon` in
the MultiLineString branch: build a polygon from each merged line,
repairing invalid ones with a zero buffer; a constructor raise skips
the line in non-strict mode and raises in strict mode. -/
def polygonizeLines (K : Kernel) (raiseOn : Bool) :
    List (List Coord) → Except String (List Geo)
  | [] => .ok []
  | cs :: rest =>
    match K.mkPolygon cs with
    | some poly => do
      let p := if K.isValid poly then poly else K.buffer0 poly
      let ps ← polygonizeLines K raiseOn rest
      pure (p :: ps)
    | none =>
      if raiseOn then .error "Failed to build polygon"
      else polygonizeLines K raiseOn rest

/-- Translation of `_convert_lines_to_multipolygon`: merge the member
lines; if the merge leaves several lines, polygonize each and union
them; otherwise build one polygon from the single merged line (failure
gives None in non-strict mode). -/
def convert_lines_to_multipolygon (K : Kernel) (lines : List Geo)
    (raiseOn : Bool) : Except String (Option Geo) := do
  let parts ← mkMultiLineString lines
  let merged := K.linemerge (.multiLineString parts)
  match merged with
  | .multiLineString mls => do
    let polys ← polygonizeLines K raiseOn mls
    to_multipolygon (K.unaryUnion polys) raiseOn
  | other =>
    match other with
    | .lineString cs =>
      match K.mkPolygon cs with
      | some poly => to_multipolygon poly raiseOn
      | none =>
        if raiseOn then .error "Failed to convert lines to polygon" else .ok none
    | _ =>
      if raiseOn then .error "Failed to convert lines to polygon" else .ok none

/-- The `MPKernel` instance the relation assembler runs with: run
merging is `_convert_lines_to_multipolygon` over the concrete kernel,
validity/union/difference are the kernel operations. -/
def pipelineMPK (K : Kernel) (raiseOn : Bool) : MPKernel Geo Geo :=
  { linesToMP := fun lines => convert_lines_to_multipolygon K lines raiseOn
    isValid := K.isValid
    unionG := K.unionG
    differenceG := K.differenceG }

/-- Translation of `orient_multipolygon`: orient every polygon of a
multipolygon; `p.geoms` on anything else (in particular Python None
after a failed coercion) raises AttributeError. -/
def orient_multipolygon (K : Kernel) (p : Option Geo) : Except String Geo :=
  match p with
  | some (.multiPolygon ps) => .ok (.multiPolygon (ps.map K.orientP))
  | _ => .error "AttributeError: geoms"

/-- Conversion state: the element store (the caller-supplied
`data['elements']`, which the conversion mutates in place) and the
emitted diagnostics. -/
structure St where
  store : List OsmEl
  diags : List String
deriving DecidableEq, Repr

/-- Result of a stateful step: either a value with the updated state,
or a raised exception carrying the state at the raise point (Python
mutations made before a raise persist). -/
abbrev EResult (α : Type) := Except (String × St) (α × St)

/-- Record a warning diagnostic. -/
def warnSt (m : String) (st : St) : St :=
  { st with diags := st.diags ++ [m] }

/-- The recurring pattern `warning(message); if raise_on_failure:
raise Exception(message); return v`. -/
def warnFail {α : Type} (raiseOn : Bool) (m : String) (v : α) (st : St) :
    EResult α :=
  let st1 := warnSt m st
  if raiseOn then .error (m, st1) else .ok (v, st1)

/-- The three element types indexed by `build_refs_index`. -/
def isRefType (t : String) : Bool :=
  t == "node" || t == "way" || t == "relation"

/-- Index of the last matching element (a dict comprehension keeps the
last element for a duplicated key). -/
def lastIdxAux (p : OsmEl → Bool) : List OsmEl → Nat → Option Nat
  | [], _ => none
  | el :: rest, k =>
    match lastIdxAux p rest (k + 1) with
    | some j => some j
    | none => if p el then some k else none

/-- Lookup in the refs index by key `type/id` (`_get_ref`); the index
contains only node/way/relation elements. -/
def lookupIdx (t : String) (i : Int) (store : List OsmEl) : Option Nat :=
  if isRefType t then
    lastIdxAux (fun el => el.etype == t && el.id == some i) store 0
  else none

/-- Placeholder element for total indexing (never reached on indices
produced by `lookupIdx`). -/
def dummyEl : OsmEl := { etype := "" }

/-- Read the store at an index. -/
def getEl (store : List OsmEl) (j : Nat) : OsmEl :=
  store.getD j dummyEl

/-- Mark the element at a store index as used by `u`
(`el['used'] = u`). -/
def setUsedAt (store : List OsmEl) (j : Nat) (u : Int) : List OsmEl :=
  store.set j { getEl store j with used := some u }

/-- The node-resolution loop of `way_to_shape`: resolve each node id
through the refs index, mark the node used by the way id (KeyError when
the way has no id), and collect its coordinates (KeyError when the node
lacks lat or lon); a missing node warns and yields None (raising in
strict mode). -/
def resolveNodes (raiseOn : Bool) (wayId : Option Int) :
    List Int → List Coord → St → EResult (Option (List Coord))
  | [], acc, st => .ok (some acc, st)
  | r :: rest, acc, st =>
    match lookupIdx "node" r st.store with
    | some j =>
      match wayId with
      | none => .error ("KeyError: id", st)
      | some wid =>
        match (getEl st.store j).lon, (getEl st.store j).lat with
        | some lo, some la =>
          resolveNodes raiseOn wayId rest (acc ++ [⟨lo, la⟩])
            { st with store := setUsedAt st.store j wid }
        | _, _ =>
          .error ("KeyError: lon/lat", { st with store := setUsedAt st.store j wid })
    | none => warnFail raiseOn "Node not found in index" none st

/-- Coordinate extraction from a referenced way shape
(`(shape.exterior if Polygon else shape).coords`): the exterior ring of
a polygon, the coordinates of a line, the single coordinate of a
point; `.coords` raises on multi-part geometries. -/
def coordsOfShape : Geo → Except String (List Coord)
  | .polygon e _ => .ok e
  | .lineString cs => .ok cs
  | .point c => .ok [c]
  | _ => .error "NotImplementedError: coords"

/-- The nonempty inline-geometry coordinate source of a way
(`'geometry' in way and len(way['geometry']) > 0`). -/
def geomSource (way : OsmEl) : Option (List Coord) :=
  match way.geometry with
  | some g => if g.length > 0 then some g else none
  | none => none

/-- The nonempty node-id coordinate source of a way
(`'nodes' in way and len(way['nodes']) > 0`). -/
def nodesSource (way : OsmEl) : Option (List Int) :=
  match way.nodes with
  | some ns => if ns.length > 0 then some ns else none
  | none => none

/-- Used-marking of a referenced way (`ref['used'] = way['id']`, or the
way's own used mark when it is a reference stub; otherwise only a
warning): the marked referent and the updated state. -/
def markRef (way : OsmEl) (j : Nat) (st : St) : OsmEl × St :=
  match way.id with
  | some wid =>
    ({ getEl st.store j with used := some wid },
     { st with store := setUsedAt st.store j wid })
  | none =>
    match way.used with
    | some u =>
      ({ getEl st.store j with used := some u },
       { st with store := setUsedAt st.store j u })
    | none => (getEl st.store j, warnSt "Failed to mark ref as used" st)

/-- Common tail of `way_to_shape` once a coordinate list is known:
degenerate lists fail softly; an area-classified way becomes a polygon
(construction failure is caught: warn and None in non-strict mode),
anything else a line. -/
def wayFinish (K : Kernel) (cfg : Config) (ak? : Option AreaKeys)
    (pf? : Option PolyFeatures) (raiseOn : Bool) (way : OsmEl)
    (coords : List Coord) (st : St) : EResult (Option ShapeRec) :=
  if coords.length < 2 then warnFail raiseOn "Not found coords for way" none st
  else
    match is_geometry_polygon cfg ak? pf? way with
    | .error e => .error (e, st)
    | .ok true =>
      match K.mkPolygon coords with
      | some poly =>
        .ok (some ⟨fix_invalid_polygon K poly, get_element_props way⟩, st)
      | none => warnFail raiseOn "Failed to generate polygon from way" none st
    | .ok false => .ok (some ⟨.lineString coords, get_element_props way⟩, st)

/-- Translation of `way_to_shape`: a way with a center summary becomes
a point; otherwise its coordinates come from nonempty inline geometry,
from a nonempty node-id list resolved through the index, or from a
`ref` indirection resolved recursively (marking the referent used by
the way id, or by the way's own used mark when it is a reference stub);
the fuel argument models the Python recursion limit on `ref` chains. -/
def way_to_shape (K : Kernel) (cfg : Config) (ak? : Option AreaKeys)
    (pf? : Option PolyFeatures) (raiseOn : Bool) :
    Nat → OsmEl → St → EResult (Option ShapeRec)
  | 0, _, st => .error ("RecursionError", st)
  | fuel + 1, way, st =>
    match way.center with
    | some c => .ok (some ⟨.point c, get_element_props way⟩, st)
    | none =>
      match geomSource way with
      | some g => wayFinish K cfg ak? pf? raiseOn way g st
      | none =>
        match nodesSource way with
        | some ns =>
          match resolveNodes raiseOn way.id ns [] st with
          | .error e => .error e
          | .ok (none, st1) => .ok (none, st1)
          | .ok (some coords, st1) => wayFinish K cfg ak? pf? raiseOn way coords st1
        | none =>
          match way.ref with
          | some rid =>
            match lookupIdx way.etype rid st.store with
            | none => warnFail raiseOn "Ref for way not found in index" none st
            | some j =>
              match way_to_shape K cfg ak? pf? raiseOn fuel
                (markRef way j st).1 (markRef way j st).2 with
              | .error e => .error e
              | .ok (none, st2) =>
                warnFail raiseOn "Way by ref not converted to shape" none st2
              | .ok (some rw, st2) =>
                match coordsOfShape rw.shape with
                | .error e => .error (e, st2)
                | .ok coords => wayFinish K cfg ak? pf? raiseOn way coords st2
          | none => warnFail raiseOn "Relation has way without nodes" none st

/-- Translation of `node_to_shape` (KeyError when lat or lon is
absent). -/
def node_to_shape (node : OsmEl) (st : St) : EResult ShapeRec :=
  match node.lon, node.lat with
  | some lo, some la => .ok (⟨.point ⟨lo, la⟩, get_element_props node⟩, st)
  | _, _ => .error ("KeyError: lon/lat", st)

/-- Write a member list back into the store element that owns it,
mirroring the Python aliasing of member dicts inside the relation
element; transient member lists (a relation that is itself only a
member record) have no owner. -/
def writeMembers (mOwner : Option Nat) (ms : List MemberRec) (st : St) : St :=
  match mOwner with
  | none => st
  | some o =>
    { st with store := st.store.set o { getEl st.store o with members := some ms } }

/-- Collapse a polygon-shaped relation member to its exterior ring as
a line (`LineString(shape.exterior.coords)`, applied to polygon-shaped member shapes). -/
def toLinePart (g : Geo) : Geo :=
  match g with
  | .polygon e _ => .lineString e
  | other => other

/-- The member loop of `multipolygon_relation_to_shape`: skip (with a
warning) members that are not ways; mark each way member used by the
relation id (KeyError when the relation has no id), writing the mark
through to the owning store element; build the member's shape,
collapsing polygons to their exterior line; collect
`(role, line, ref)` triples, raising KeyError when a member lacks role
or ref. -/
def processMembers (K : Kernel) (cfg : Config) (ak? : Option AreaKeys)
    (pf? : Option PolyFeatures) (raiseOn : Bool) (fuel : Nat)
    (relId : Option Int) (mOwner : Option Nat) :
    List MemberRec → List MemberRec → List (RoleShape Geo) → St →
    EResult (List (RoleShape Geo) × List MemberRec)
  | [], done, shapes, st => .ok ((shapes, done), st)
  | m :: todo, done, shapes, st =>
    if m.mtype != "way" then
      if raiseOn then
        .error ("Multipolygon member not handled",
          warnSt "Multipolygon member not handled" st)
      else
        processMembers K cfg ak? pf? raiseOn fuel relId mOwner todo (done ++ [m])
          shapes (warnSt "Multipolygon member not handled" st)
    else
      match relId with
      | none => .error ("KeyError: id", st)
      | some rid =>
        match way_to_shape K cfg ak? pf? raiseOn fuel { m with used := some rid }.toEl
          (writeMembers mOwner ((done ++ [{ m with used := some rid }]) ++ todo) st) with
        | .error e => .error e
        | .ok (none, st2) =>
          if raiseOn then
            .error ("Failed to make way in relation",
              warnSt "Failed to make way in relation" st2)
          else
            processMembers K cfg ak? pf? raiseOn fuel relId mOwner todo
              (done ++ [{ m with used := some rid }]) shapes
              (warnSt "Failed to make way in relation" st2)
        | .ok (some ws, st2) =>
          match m.role with
          | none => .error ("KeyError: role", st2)
          | some role =>
            match m.ref with
            | none => .error ("KeyError: ref", st2)
            | some r =>
              processMembers K cfg ak? pf? raiseOn fuel relId mOwner todo
                (done ++ [{ m with used := some rid }])
                (shapes ++ [(role, toLinePart ws.shape, r)]) st2

/-- Tail of `multipolygon_relation_to_shape` once the member list is
resolved: run the member loop, assemble the multipolygon, repair,
coerce and orient it. -/
def mpWithMembers (K : Kernel) (cfg : Config) (ak? : Option AreaKeys)
    (pf? : Option PolyFeatures) (raiseOn : Bool) (fuel : Nat) (rel : OsmEl)
    (mOwner : Option Nat) (ms : List MemberRec) (st : St) :
    EResult (Option ShapeRec) :=
  match processMembers K cfg ak? pf? raiseOn fuel rel.id mOwner ms [] [] st with
  | .error e => .error e
  | .ok ((shapes, _), st1) =>
    match convert_shapes_to_multipolygon (pipelineMPK K raiseOn) shapes raiseOn with
    | .error e => .error (e, st1)
    | .ok none =>
      warnFail raiseOn "Failed to convert computed shapes to multipolygon" none st1
    | .ok (some mp) =>
      match to_multipolygon (fix_invalid_polygon K mp) raiseOn with
      | .error e => .error (e, st1)
      | .ok mp2 =>
        match orient_multipolygon K mp2 with
        | .error e => .error (e, st1)
        | .ok mp3 => .ok (some ⟨mp3, get_element_props rel⟩, st1)

/-- Translation of `multipolygon_relation_to_shape`: the member list is
the relation's own (owned by its store slot) or, for a reference stub,
the referenced relation's (owned by that element's slot); then assemble
as in `mpWithMembers`. -/
def multipolygon_relation_to_shape (K : Kernel) (cfg : Config)
    (ak? : Option AreaKeys) (pf? : Option PolyFeatures) (raiseOn : Bool)
    (fuel : Nat) (rel : OsmEl) (ownerIdx : Option Nat) (st : St) :
    EResult (Option ShapeRec) :=
  match rel.members with
  | some ms => mpWithMembers K cfg ak? pf? raiseOn fuel rel ownerIdx ms st
  | none =>
    match rel.ref with
    | none => .error ("KeyError: ref", st)
    | some rid =>
      match lookupIdx rel.etype rid st.store with
      | none =>
        let msg := "Ref for multipolygon relation not found in index"
        let st1 := warnSt msg st
        if raiseOn then .error (msg, st1) else .ok (none, st1)
      | some j =>
        match (getEl st.store j).members with
        | none => .error ("KeyError: members", st)
        | some ms => mpWithMembers K cfg ak? pf? raiseOn fuel rel (some j) ms st

/-- State carried by a result, whether returned or raised. -/
def stOf {α : Type} : EResult α → St
  | .ok (_, st) => st
  | .error (_, st) => st

mutual

/-- Translation of `element_to_shape`: dispatch on the element type;
relations are dispatched without the caller's rule tables (the Python
call site does not forward `area_keys`/`polygon_features` to
`relation_to_shape`). The fuel argument models the Python recursion
limit (exhaustion is a RecursionError). -/
def element_to_shape (K : Kernel) (cfg : Config) (ak? : Option AreaKeys)
    (pf? : Option PolyFeatures) (raiseOn : Bool) :
    Nat → OsmEl → Option Nat → St → EResult (Option ShapeRec)
  | 0, _, _, st => .error ("RecursionError", st)
  | fuel + 1, el, ownerIdx, st =>
    if el.etype == "node" then
      match node_to_shape el st with
      | .error e => .error e
      | .ok (s, st1) => .ok (some s, st1)
    else if el.etype == "way" then
      way_to_shape K cfg ak? pf? raiseOn fuel el st
    else if el.etype == "relation" then
      relation_to_shape K cfg raiseOn fuel el ownerIdx st
    else
      .ok (none, warnSt "Failed to convert element to shape" st)

/-- Translation of `relation_to_shape`: a center summary short-circuits
to a point; otherwise classify the relation (with default tables — the
Python call site drops the custom ones here) and assemble a
multipolygon or a multiline inside a try/except that degrades any
raised exception to a logged error and None in non-strict mode. -/
def relation_to_shape (K : Kernel) (cfg : Config) (raiseOn : Bool) :
    Nat → OsmEl → Option Nat → St → EResult (Option ShapeRec)
  | 0, _, _, st => .error ("RecursionError", st)
  | fuel + 1, rel, ownerIdx, st =>
    match rel.center with
    | some c => .ok (some ⟨.point c, get_element_props rel⟩, st)
    | none =>
      match
        (match is_geometry_polygon cfg none none rel with
         | .error e => .error (e, st)
         | .ok true =>
           multipolygon_relation_to_shape K cfg none none raiseOn fuel rel ownerIdx st
         | .ok false =>
           multiline_realation_to_shape K cfg none none raiseOn fuel rel ownerIdx st :
          EResult (Option ShapeRec))
      with
      | .ok r => .ok r
      | .error (msg, stE) =>
        if raiseOn then
          .error ("Failed to convert relation to shape: " ++ msg,
            warnSt ("Failed to convert relation to shape: " ++ msg) stE)
        else
          .ok (none, warnSt ("Failed to convert relation to shape: " ++ msg) stE)

/-- Translation of `multiline_realation_to_shape` (source spelling):
resolve the member list (own members or referenced stub) and build the
merged multiline through `mlRun`. -/
def multiline_realation_to_shape (K : Kernel) (cfg : Config)
    (ak? : Option AreaKeys) (pf? : Option PolyFeatures) (raiseOn : Bool) :
    Nat → OsmEl → Option Nat → St → EResult (Option ShapeRec)
  | 0, _, _, st => .error ("RecursionError", st)
  | fuel + 1, rel, _ownerIdx, st =>
    match rel.members with
    | some ms => mlRun K cfg ak? pf? raiseOn fuel rel ms st
    | none =>
      match rel.ref with
      | none => .error ("KeyError: ref", st)
      | some rid =>
        match lookupIdx rel.etype rid st.store with
        | none =>
          if raiseOn then
            .error ("Ref for multiline relation not found in index",
              warnSt "Ref for multiline relation not found in index" st)
          else
            .ok (none, warnSt "Ref for multiline relation not found in index" st)
        | some j =>
          match (getEl st.store j).members with
          | none => .error ("KeyError: members", st)
          | some ms => mlRun K cfg ak? pf? raiseOn fuel rel ms st

/-- Tail of the multiline path: run the member loop, fail softly with
zero usable lines, otherwise merge the lines into a multiline shape
(`MultiLineString(lines)` raises on a non-line part). -/
def mlRun (K : Kernel) (cfg : Config) (ak? : Option AreaKeys)
    (pf? : Option PolyFeatures) (raiseOn : Bool) :
    Nat → OsmEl → List MemberRec → St → EResult (Option ShapeRec)
  | 0, _, _, st => .error ("RecursionError", st)
  | fuel + 1, rel, ms, st =>
    match mlLoop K cfg ak? pf? raiseOn fuel rel.id ms [] st with
    | .error e => .error e
    | .ok (lines, st2) =>
      if lines.length < 1 then
        warnFail raiseOn "No lines for multiline relation" none st2
      else
        match mkMultiLineString lines with
        | .error e => .error (e, st2)
        | .ok parts =>
          .ok (some ⟨K.linemerge (.multiLineString parts), get_element_props rel⟩, st2)

/-- The member loop of the multiline path: way members go through
`way_to_shape`; relation members are marked used in the store (when
found) and recursed into through `element_to_shape`; other member
types are skipped with a warning; the shared continuation is
`mlAfter`. -/
def mlLoop (K : Kernel) (cfg : Config) (ak? : Option AreaKeys)
    (pf? : Option PolyFeatures) (raiseOn : Bool) :
    Nat → Option Int → List MemberRec → List Geo → St → EResult (List Geo)
  | 0, _, _, _, st => .error ("RecursionError", st)
  | _fuel + 1, _relId, [], lines, st => .ok (lines, st)
  | fuel + 1, relId, m :: todo, lines, st =>
    if m.mtype == "way" then
      mlAfter K cfg ak? pf? raiseOn fuel relId todo lines
        (way_to_shape K cfg ak? pf? raiseOn fuel m.toEl st)
    else if m.mtype == "relation" then
      match m.ref with
      | none => .error ("KeyError: ref", st)
      | some rid =>
        match lookupIdx "relation" rid st.store with
        | some j =>
          match relId with
          | none => .error ("KeyError: id", st)
          | some ri =>
            mlAfter K cfg ak? pf? raiseOn fuel relId todo lines
              (element_to_shape K cfg ak? pf? raiseOn fuel m.toEl none
                { st with store := setUsedAt st.store j ri })
        | none =>
          mlAfter K cfg ak? pf? raiseOn fuel relId todo lines
            (element_to_shape K cfg ak? pf? raiseOn fuel m.toEl none
              (warnSt "Element not found in refs_index" st))
    else
      if raiseOn then
        .error ("multiline member not handled",
          warnSt "multiline member not handled" st)
      else
        mlLoop K cfg ak? pf? raiseOn fuel relId todo lines
          (warnSt "multiline member not handled" st)

/-- Continuation of the multiline member loop after a member shape is
built: unusable members are skipped with a warning, polygons collapse
to their exterior line, and the loop continues. -/
def mlAfter (K : Kernel) (cfg : Config) (ak? : Option AreaKeys)
    (pf? : Option PolyFeatures) (raiseOn : Bool) :
    Nat → Option Int → List MemberRec → List Geo →
    EResult (Option ShapeRec) → EResult (List Geo)
  | 0, _, _, _, res => .error ("RecursionError", stOf res)
  | fuel + 1, relId, todo, lines, res =>
    match res with
    | .error e => .error e
    | .ok (none, st1) =>
      if raiseOn then
        .error ("Failed to make way in relation",
          warnSt "Failed to make way in relation" st1)
      else
        mlLoop K cfg ak? pf? raiseOn fuel relId todo lines
          (warnSt "Failed to make way in relation" st1)
    | .ok (some ws, st1) =>
      mlLoop K cfg ak? pf? raiseOn fuel relId todo
        (lines ++ [toLinePart ws.shape]) st1

end

/-- Eager KeyError of `build_refs_index`: building the index reads the
id of every node/way/relation element before any conversion starts. -/
def refsIdxGuard (store : List OsmEl) : Except String Unit :=
  match store.find? (fun el => isRefType el.etype && el.id == none) with
  | some _ => .error "KeyError: id"
  | none => .ok ()

/-- The conversion loop of `_json2shapes`: convert the element at each
index of the store in order (each element reads its current, possibly
already mutated, state), collecting shapes; a failed element logs a
warning naming its id (KeyError when it has none). -/
def convLoop (K : Kernel) (cfg : Config) (ak? : Option AreaKeys)
    (pf? : Option PolyFeatures) (raiseOn : Bool) (fuel : Nat) :
    List Nat → List ShapeRec → St → EResult (List ShapeRec)
  | [], shapes, st => .ok (shapes, st)
  | i :: rest, shapes, st =>
    let el := getEl st.store i
    match element_to_shape K cfg ak? pf? raiseOn fuel el (some i) st with
    | .error e => .error e
    | .ok (some s, st1) => convLoop K cfg ak? pf? raiseOn fuel rest (shapes ++ [s]) st1
    | .ok (none, st1) =>
      match el.id with
      | none => .error ("KeyError: id", st1)
      | some _ =>
        convLoop K cfg ak? pf? raiseOn fuel rest shapes (warnSt "Element not converted" st1)

/-- The used map of `_json2shapes`: ids of node/way/relation elements
carrying a used mark after conversion (reading an id that is absent
raises KeyError). -/
def usedEntries : List OsmEl → Except String (List Int)
  | [] => .ok []
  | el :: rest =>
    if isRefType el.etype && el.used.isSome then
      match el.id with
      | none => .error "KeyError: id"
      | some i =>
        match usedEntries rest with
        | .error e => .error e
        | .ok ks => .ok (i :: ks)
    else usedEntries rest

/-- The used-reference filter of `_json2shapes`: drop every shape whose
properties id is a used key (reading a missing properties id raises
KeyError). -/
def filterShapes (ks : List Int) : List ShapeRec → Except String (List ShapeRec)
  | [] => .ok []
  | s :: rest =>
    match s.properties.id with
    | none => .error "KeyError: id"
    | some i =>
      if ks.contains i then filterShapes ks rest
      else
        match filterShapes ks rest with
        | .error e => .error e
        | .ok l => .ok (s :: l)

/-- Translation of `_json2shapes`: build the refs index (which raises
eagerly on an id-less node/way/relation), convert every element in
order, and either return the shape list unfiltered or drop the shapes
whose element id was consumed as a used reference. -/
def json2shapes (K : Kernel) (cfg : Config) (ak? : Option AreaKeys)
    (pf? : Option PolyFeatures) (fuel : Nat) (doc : List OsmEl)
    (filterUsedRefs : Bool) (raiseOn : Bool) : EResult (List ShapeRec) :=
  let st0 : St := { store := doc, diags := [] }
  match refsIdxGuard doc with
  | .error e => .error (e, st0)
  | .ok () =>
    match convLoop K cfg ak? pf? raiseOn fuel (List.range doc.length) [] st0 with
    | .error e => .error e
    | .ok (shapes, st1) =>
      if !filterUsedRefs then .ok (shapes, st1)
      else
        match usedEntries st1.store with
        | .error e => .error (e, st1)
        | .ok ks =>
          match filterShapes ks shapes with
          | .error e => .error (e, st1)
          | .ok l => .ok (l, st1)

/-- Decidable equality on results, for concrete evaluation. -/
instance {ε α : Type _} [DecidableEq ε] [DecidableEq α] : DecidableEq (Except ε α)
  | .ok a, .ok b =>
    if h : a = b then isTrue (congrArg Except.ok h)
    else isFalse (fun hh => h (Except.ok.inj hh))
  | .error a, .error b =>
    if h : a = b then isTrue (congrArg Except.error h)
    else isFalse (fun hh => h (Except.error.inj hh))
  | .ok _, .error _ => isFalse (fun hh => Except.noConfusion hh)
  | .error _, .ok _ => isFalse (fun hh => Except.noConfusion hh)

/-- A concrete geometry kernel used to instantiate hypotheses of the
general theorems on concrete inputs. -/
def K0 : Kernel :=
  { linemerge := fun g => g
    unaryUnion := fun _ => .multiPolygon []
    unionG := fun a _ => a
    differenceG := fun a _ => a
    isValid := fun _ => true
    buffer0 := fun g => g
    mkPolygon := fun cs => some (.polygon cs [])
    orientP := fun p => p }

/-- A configuration with empty default tables. -/
def cfg0 : Config := ⟨[], []⟩

/-- The claims-facing reading of the rule table, written from the
specification text: a rule fires when its key is present in the tags
and its mode is all, whitelist with the tag value among the rule
values, or blacklist. -/
def ruleFires (ts : Tags) (r : Rule) : Bool :=
  match lookupTag ts r.key with
  | none => false
  | some v =>
    r.polygon == "all" || (r.polygon == "whitelist" && r.values.contains v)
      || r.polygon == "blacklist"

/-- The verdict of a firing rule: blacklist answers by absence of the
tag value from its values, all and a matching whitelist answer true. -/
def ruleVerdict (ts : Tags) (r : Rule) : Bool :=
  match lookupTag ts r.key with
  | none => false
  | some v => if r.polygon == "blacklist" then !(r.values.contains v) else true

/-- First-firing-rule semantics of the rule table: the first rule that
fires decides; with no firing rule the element is not a polygon. -/
def ruleTableDecision (ts : Tags) (pf : PolyFeatures) : Bool :=
  match pf.find? (ruleFires ts) with
  | some r => ruleVerdict ts r
  | none => false

/-- Step equation of the rule-table loop: the head rule decides when
it fires, otherwise the scan continues. -/
theorem isGPWEcore_cons (ts : Tags) (r : Rule) (rest : PolyFeatures) :
    isGPWEcore ts (r :: rest) =
      if ruleFires ts r then ruleVerdict ts r else isGPWEcore ts rest := by
  conv_lhs => unfold isGPWEcore
  unfold ruleFires ruleVerdict
  cases h : lookupTag ts r.key with
  | none => simp
  | some v =>
    cases hall : (r.polygon == "all") with
    | true =>
      have he := eq_of_beq hall
      simp [he]
    | false =>
      cases hbl : (r.polygon == "blacklist") with
      | true =>
        have he := eq_of_beq hbl
        simp [he]
      | false =>
        cases hwl : (r.polygon == "whitelist") with
        | false => simp [hall, hbl, hwl]
        | true =>
          have he := eq_of_beq hwl
          by_cases hvv : v ∈ r.values
          · simp [he, hvv, hall, hbl]
          · simp [he, hvv, hall, hbl]

/-- Step equation of the first-firing-rule reading. -/
theorem ruleTableDecision_cons (ts : Tags) (r : Rule) (rest : PolyFeatures) :
    ruleTableDecision ts (r :: rest) =
      if ruleFires ts r then ruleVerdict ts r else ruleTableDecision ts rest := by
  unfold ruleTableDecision
  simp only [List.find?]
  cases hfr : ruleFires ts r <;> simp

/-- The rule-table loop realizes first-firing-rule semantics: rules
whose key is absent, whitelist rules whose value does not match, and
rules with an unrecognized mode are skipped; the first firing rule
decides. -/
theorem isGPWEcore_eq_decision (ts : Tags) (pf : PolyFeatures) :
    isGPWEcore ts pf = ruleTableDecision ts pf := by
  induction pf with
  | nil => rfl
  | cons r rest ih =>
    rw [isGPWEcore_cons, ruleTableDecision_cons, ih]

/-- Concrete element for the C3 witness: area=no next to
type=multipolygon and an all-rule tag. -/
def elC3 : OsmEl :=
  { etype := "way"
    tags := some [("area", "no"), ("type", "multipolygon"), ("building", "yes")] }

/-- C3: for every element whose tags contain area=no, the polygon
classifier returns false, regardless of every other tag on the element,
including type=multipolygon and tags matched by all or whitelist rules
of the rule table. -/
theorem c3_area_no_forces_not_area (cfg : Config) (ak? : Option AreaKeys)
    (pf? : Option PolyFeatures) (el : OsmEl) (ts : Tags)
    (htags : el.tags = some ts) (harea : lookupTag ts "area" = some "no") :
    is_geometry_polygon cfg ak? pf? el = .ok false := by
  unfold is_geometry_polygon
  rw [htags]
  simp [harea]

/-- Witness for C3 at a concrete element carrying area=no together
with type=multipolygon and building=yes. -/
theorem c3_area_no_forces_not_area_witness :
    is_geometry_polygon cfg0 none none elC3 = .ok false :=
  c3_area_no_forces_not_area cfg0 none none elC3 _ rfl (by decide)

/-- Concrete tag set for the C4 counterexample. -/
def tsC4 : Tags := [("k1", "x"), ("k2", "y")]

/-- Concrete element for the C4 counterexample. -/
def elC4 : OsmEl := { etype := "way", tags := some tsC4 }

/-- A whitelist rule on k1 whose values do not contain the tag value. -/
def ruleC4a : Rule := ⟨"k1", "whitelist", ["other"]⟩

/-- An all rule on the different key k2. -/
def ruleC4b : Rule := ⟨"k2", "all", []⟩

/-- Counterexample to C4 as stated: k1 is the first rule key present in
the tags, yet appending a later rule on the different key k2 changes
the classification from false to true — a key-present whitelist rule
whose values do not match does not stop the scan. -/
theorem c4_counterexample :
    (lookupTag tsC4 ruleC4a.key).isSome = true ∧
    is_geometry_polygon_without_exceptions cfg0 (some [ruleC4a]) elC4 = .ok false ∧
    is_geometry_polygon_without_exceptions cfg0 (some [ruleC4a, ruleC4b]) elC4
      = .ok true := by
  decide

/-- C4 amended: the rule-table consultation is decided by the first
rule that fires — mode all with its key present, whitelist with its key
present and the tag value among its values, or blacklist with its key
present; a key-present whitelist rule whose value does not match (or a
rule with an unrecognized mode) is skipped and later rules, on any
key, are still consulted; with no firing rule the result is false. -/
theorem c4_first_firing_rule_decides (cfg : Config) (pf? : Option PolyFeatures)
    (el : OsmEl) (ts : Tags) (htags : el.tags = some ts) :
    is_geometry_polygon_without_exceptions cfg pf? el =
      .ok (ruleTableDecision ts (resolvePF pf? cfg.defPF)) := by
  unfold is_geometry_polygon_without_exceptions
  rw [htags]
  simp [isGPWEcore_eq_decision]

/-- Witness for the amended C4 at the counterexample element and rule
table: the first firing rule is the all rule on k2. -/
theorem c4_first_firing_rule_decides_witness :
    is_geometry_polygon_without_exceptions cfg0 (some [ruleC4a, ruleC4b]) elC4 =
      .ok (ruleTableDecision tsC4 (resolvePF (some [ruleC4a, ruleC4b]) cfg0.defPF)) :=
  c4_first_firing_rule_decides cfg0 (some [ruleC4a, ruleC4b]) elC4 tsC4 rfl

/-- Concrete tag set for the C5 counterexample. -/
def tsC5 : Tags := [("k1", "v"), ("k2", "w")]

/-- A closed way (first node id equals the last) with the C5 tags. -/
def elC5 : OsmEl := { etype := "way", tags := some tsC5, nodes := some [1, 2, 1] }

/-- A whitelist rule on k2 matching the tag value w. -/
def ruleC5wl : Rule := ⟨"k2", "whitelist", ["w"]⟩

/-- A blacklist rule on k1 whose values contain the tag value v. -/
def ruleC5bl : Rule := ⟨"k1", "blacklist", ["v"]⟩

/-- Counterexample to C5 as stated: a closed way without overrides
whose tags hit the k1 blacklist (value v among its values) is still
classified as an area, because a whitelist rule on the different key
k2 appears earlier in the table and fires first. -/
theorem c5_counterexample :
    ruleC5bl.polygon = "blacklist" ∧
    lookupTag tsC5 ruleC5bl.key = some "v" ∧
    ruleC5bl.values.contains "v" = true ∧
    elC5.nodes = some [1, 2, 1] ∧
    is_geometry_polygon cfg0 none (some [ruleC5wl, ruleC5bl]) elC5 = .ok true := by
  decide

/-- C5 amended: for a closed way without area/type overrides, when the
first firing rule of the table is a blacklist rule and the way's value
for that rule's key is in the blacklist values, the classifier returns
false — even when another key of the way is governed by a whitelist or
all rule that would match, provided that rule does not fire earlier in
the table. -/
theorem c5_blacklist_hit_forces_line (cfg : Config) (ak? : Option AreaKeys)
    (pf? : Option PolyFeatures) (el : OsmEl) (ts : Tags) (ns : List Int)
    (rb : Rule) (v : String)
    (htags : el.tags = some ts)
    (hyes : lookupTag ts "area" ≠ some "yes")
    (hno : lookupTag ts "area" ≠ some "no")
    (hmp : lookupTag ts "type" ≠ some "multipolygon")
    (hgeo : el.geometry = none)
    (hnodes : el.nodes = some ns)
    (hne : ns ≠ [])
    (hclosed : ns.head? = ns.getLast?)
    (hfind : (resolvePF pf? cfg.defPF).find? (ruleFires ts) = some rb)
    (hbl : rb.polygon = "blacklist")
    (hv : lookupTag ts rb.key = some v)
    (hcont : rb.values.contains v = true) :
    is_geometry_polygon cfg ak? pf? el = .ok false := by
  unfold is_geometry_polygon
  have hnob : (lookupTag ts "area" == some "no") = false := by
    simpa using hno
  have hyesb : (lookupTag ts "area" == some "yes") = false := by
    simpa using hyes
  have hmpb : (lookupTag ts "type" == some "multipolygon") = false := by
    simpa using hmp
  simp only [htags, hgeo, hnob, hyesb, hmpb, Bool.false_eq_true, if_false]
  unfold igpAfterGeom
  cases hh : ns.head? with
  | none =>
    exact absurd (List.head?_eq_none_iff.mp hh) hne
  | some n0 =>
    have hh2 : ns.getLast? = some n0 := by rw [← hclosed]; exact hh
    simp only [hnodes, hh, hh2, bne_self_eq_false, Bool.false_eq_true, if_false]
    unfold igpRuleStep
    simp only [isGPWEcore_eq_decision, ruleTableDecision, hfind, ruleVerdict,
      hv, hbl, hcont]
    simp

/-- Witness for the amended C5: with the blacklist rule firing first,
the closed way with a blacklisted value and a matching whitelist rule
on another key is classified as not an area. -/
theorem c5_blacklist_hit_forces_line_witness :
    is_geometry_polygon cfg0 none (some [ruleC5bl, ruleC5wl]) elC5 = .ok false :=
  c5_blacklist_hit_forces_line cfg0 none (some [ruleC5bl, ruleC5wl]) elC5
    tsC5 [1, 2, 1] ruleC5bl "v" rfl (by decide) (by decide) (by decide) rfl rfl
    (by decide) (by decide) (by decide) (by decide) (by decide) (by decide)

/-- Concrete element for the C10 counterexample: empty node list next
to a nonempty open inline geometry. -/
def elC10 : OsmEl :=
  { etype := "way", tags := some [("building", "yes")], nodes := some []
    geometry := some [⟨0, 0⟩, ⟨1, 1⟩] }

/-- Counterexample to C10 as stated: an element with one tag, no
area/type overrides and a nodes key bound to the empty list does not
raise when its geometry key holds a nonempty open coordinate list — the
open-geometry check returns false before the node-id list is indexed. -/
theorem c10_counterexample :
    elC10.tags = some [("building", "yes")] ∧
    elC10.nodes = some [] ∧
    is_geometry_polygon cfg0 none none elC10 = .ok false := by
  decide

/-- C10 amended: for every element with at least one tag, no
area=yes/no tag and no type=multipolygon tag, calling the polygon
classifier directly raises IndexError when the geometry key is bound to
an empty list, or when the nodes key is bound to an empty list and
geometry is absent or bound to a nonempty closed coordinate list (an
empty nodes key next to a nonempty open geometry instead returns
false). -/
theorem c10_empty_list_raises (cfg : Config) (ak? : Option AreaKeys)
    (pf? : Option PolyFeatures) (el : OsmEl) (ts : Tags)
    (htags : el.tags = some ts) (hts : ts ≠ [])
    (hyes : lookupTag ts "area" ≠ some "yes")
    (hno : lookupTag ts "area" ≠ some "no")
    (hmp : lookupTag ts "type" ≠ some "multipolygon")
    (hsrc : el.geometry = some [] ∨
      (el.nodes = some [] ∧
        (el.geometry = none ∨
          ∃ g c0 c1, el.geometry = some g ∧ g.head? = some c0 ∧
            g.getLast? = some c1 ∧ is_same_coords c0 c1 = true))) :
    ∃ msg, is_geometry_polygon cfg ak? pf? el = .error msg ∧
      (msg = "IndexError: geometry" ∨ msg = "IndexError: nodes") := by
  unfold is_geometry_polygon
  have hnob : (lookupTag ts "area" == some "no") = false := by
    simpa using hno
  have hyesb : (lookupTag ts "area" == some "yes") = false := by
    simpa using hyes
  have hmpb : (lookupTag ts "type" == some "multipolygon") = false := by
    simpa using hmp
  rcases hsrc with hg | ⟨hn, hgeo⟩
  · refine ⟨"IndexError: geometry", ?_, Or.inl rfl⟩
    simp only [htags, hg, hnob, hyesb, hmpb, Bool.false_eq_true, if_false,
      List.head?, List.getLast?]
  · refine ⟨"IndexError: nodes", ?_, Or.inr rfl⟩
    rcases hgeo with hgeo | ⟨g, c0, c1, hgeo, hh, hl, hsame⟩
    · simp only [htags, hgeo, hnob, hyesb, hmpb, Bool.false_eq_true, if_false]
      unfold igpAfterGeom
      simp only [hn, List.head?, List.getLast?]
    · simp only [htags, hgeo, hnob, hyesb, hmpb, Bool.false_eq_true, if_false,
        hh, hl, hsame, Bool.not_true]
      unfold igpAfterGeom
      simp only [hn, List.head?, List.getLast?]

/-- Concrete element for the C10 witness: geometry bound to an empty
list. -/
def elC10w : OsmEl :=
  { etype := "way", tags := some [("building", "yes")], geometry := some [] }

/-- Witness for the amended C10: an element with one tag and an empty
geometry list makes the classifier raise IndexError. -/
theorem c10_empty_list_raises_witness :
    ∃ msg, is_geometry_polygon cfg0 none none elC10w = .error msg ∧
      (msg = "IndexError: geometry" ∨ msg = "IndexError: nodes") :=
  c10_empty_list_raises cfg0 none none elC10w [("building", "yes")] rfl
    (by decide) (by decide) (by decide) (by decide) (Or.inl rfl)

/-- Fold form of the combination loop: combine each remaining
(role, geometry) pair into the base, by difference for inner and union
otherwise, in list order. -/
def foldCombine {G L : Type} (K : MPKernel G L) (base : G)
    (others : List (String × G)) : G :=
  others.foldl
    (fun acc rg => if rg.1 == "inner" then K.differenceG acc rg.2 else K.unionG acc rg.2)
    base

/-- The non-base groups in source order, paired with their merged
geometries, starting from position `i`. -/
def othersFrom {G : Type} (i b : Nat)
    (gs : List (String × Option G × List Int)) : List (String × G) :=
  ((gs.enumFrom i).filter (fun p => p.1 != b)).filterMap
    (fun p => p.2.2.1.map (fun g => (p.2.1, g)))

/-- The combination loop computes the fold over the non-base groups in
source order, provided every group has a merged geometry. -/
theorem combineRest_eq_fold {G L : Type} (K : MPKernel G L) (b : Nat) :
    ∀ (gs : List (String × Option G × List Int)) (i : Nat) (acc : G),
      (∀ e ∈ gs, (e.2.1).isSome = true) →
      combineRest K b i acc gs = .ok (foldCombine K acc (othersFrom i b gs)) := by
  intro gs
  induction gs with
  | nil => intro i acc _; rfl
  | cons e rest ih =>
    intro i acc hall
    obtain ⟨role, g?, ids⟩ := e
    have hg : g?.isSome = true := hall _ (List.mem_cons_self _ _)
    obtain ⟨g, rfl⟩ := Option.isSome_iff_exists.mp hg
    have hrest : ∀ e ∈ rest, (e.2.1).isSome = true :=
      fun e he => hall e (List.mem_cons_of_mem _ he)
    unfold combineRest othersFrom
    simp only [List.enumFrom]
    cases hib : (i == b) with
    | true =>
      have : (i != b) = false := by
        simp only [bne, hib, Bool.not_true]
      simp only [hib, this, if_true, List.filter_cons, Bool.false_eq_true, if_false]
      have := ih (i + 1) acc hrest
      unfold othersFrom at this
      exact this
    | false =>
      have hne : (i != b) = true := by
        simp only [bne, hib, Bool.not_false]
      simp only [hib, hne, Bool.false_eq_true, if_false, List.filter_cons, if_true,
        List.filterMap_cons, Option.map_some]
      have := ih (i + 1)
        (if role == "inner" then K.differenceG acc g else K.unionG acc g) hrest
      unfold othersFrom at this
      rw [this]
      rfl

/-- Discrete planar regions (finite sets of unit cells, as lists with
membership semantics) used to instantiate the abstract geometry kernel
on the C1 scenario. -/
abbrev Region := List (Int × Int)

/-- Region union: keep the left cells and the right cells not already
present. -/
def regUnion (a b : Region) : Region :=
  a ++ b.filter (fun x => !(a.contains x))

/-- Region difference: keep the left cells not in the right region. -/
def regDiff (a b : Region) : Region :=
  a.filter (fun x => !(b.contains x))

/-- Modelled from the spec: the single outer shell of the scenario in
the testable-properties section - the region bounded by the one ring
that the arcs A, B and D form together, here a 3 by 3 block of
cells. -/
def regShell : Region :=
  [((0 : Int), (0 : Int)), (0, 1), (0, 2), (1, 0), (1, 1), (1, 2),
   (2, 0), (2, 1), (2, 2)]

/-- Modelled from the spec: the hole C of the scenario, a region fully
inside the shell. -/
def regHole : Region := [((1 : Int), (1 : Int))]

/-- Modelled from the spec: the polygon obtained by merging and closing
the arc D alone - a sliver along the left edge of the shell, inside the
shell and disjoint from the hole. -/
def regLeft : Region := [((0 : Int), (0 : Int)), (0, 1), (0, 2)]

/-- Modelled from the spec: the run merger of the relation assembler
(line-merge the arcs of a run, close the merged path, build the polygon
region) on the three runs of the scenario - arcs A and B merge and
close to the full shell, arc C closes to the hole, arc D closes to the
left sliver. -/
def scenarioLinesToMP : List String → Except String (Option Region)
  | ["A", "B"] => .ok (some regShell)
  | ["C"] => .ok (some regHole)
  | ["D"] => .ok (some regLeft)
  | _ => .ok none

/-- Modelled from the spec: the external geometry kernel on discrete
regions - union and difference are region union and difference, every
region is valid. -/
def regionMPK : MPKernel Region String :=
  { linesToMP := scenarioLinesToMP
    isValid := fun _ => true
    unionG := regUnion
    differenceG := regDiff }

/-- The member shapes of the scenario relation, in source order: roles
outer, outer, inner, outer with member ids 1 to 4. -/
def shapesC1 : List (RoleShape String) :=
  [("outer", "A", 1), ("outer", "B", 2), ("inner", "C", 3), ("outer", "D", 4)]

/-- Shortcut instance keeping instance search shallow on group
triples. -/
instance : DecidableEq (String × Option Region × List Int) := inferInstance

/-- The groups the scenario produces: the outer run A,B, the inner run
C, and the trailing outer run D. -/
def groupsC1 : List (String × Option Region × List Int) :=
  [("outer", some regShell, [1, 2]), ("inner", some regHole, [3]),
   ("outer", some regLeft, [4])]

/-- C1: the multipolygon assembly selects as base the merged geometry
of the first run whose role is outer, and every other run is combined
into that base in source order - by difference when its role is inner
and by union otherwise; and on the concrete scenario
[outer A, outer B, inner C, outer D], where A, B and D form one ring
and C is a hole inside it, the assembly yields the single shell minus
the single hole - one outer shell with exactly one hole, not three
disjoint shells. -/
theorem c1_first_outer_run_is_base :
    (∀ (G L : Type) (K : MPKernel G L) (raiseOn : Bool)
        (shapes : List (RoleShape L))
        (groups : List (String × Option G × List Int)) (b : Nat) (base : G),
        buildGroups K shapes = .ok groups →
        findOuterRun groups = some (b, some base) →
        K.isValid base = true →
        (∀ e ∈ groups, (e.2.1).isSome = true) →
        convert_shapes_to_multipolygon K shapes raiseOn =
          .ok (some (foldCombine K base (othersFrom 0 b groups)))) ∧
    (convert_shapes_to_multipolygon regionMPK shapesC1 false =
        .ok (some (regDiff regShell regHole)) ∧
      regHole.all (fun c => regShell.contains c) = true ∧
      regHole ≠ [] ∧
      regLeft.all (fun c => !(regHole.contains c)) = true ∧
      regLeft.all (fun c => regShell.contains c) = true) := by
  constructor
  · intro G L K raiseOn shapes groups b base hbuild hfind hvalid hall
    by_cases hs : shapes = []
    · subst hs
      have : groups = [] := by
        have : buildGroups K ([] : List (RoleShape L)) = .ok [] := rfl
        rw [this] at hbuild
        exact (Except.ok.inj hbuild).symm
      subst this
      simp [findOuterRun] at hfind
    · have hlen : ¬(shapes.length < 1) := by
        have := List.length_pos.mpr hs
        omega
      unfold convert_shapes_to_multipolygon
      rw [if_neg hlen]
      simp only [Bind.bind, Except.bind, hbuild, hfind]
      rw [hvalid]
      simp only [Bool.not_true, Bool.false_eq_true, if_false]
      rw [combineRest_eq_fold K b groups 0 base hall]
      rfl
  · refine ⟨by decide, by decide, by decide, by decide, by decide⟩

/-- Witness for C1: the structural characterization applied to the
scenario kernel and shapes, with every hypothesis discharged by
computation. -/
theorem c1_first_outer_run_is_base_witness :
    convert_shapes_to_multipolygon regionMPK shapesC1 false =
      .ok (some (foldCombine regionMPK regShell (othersFrom 0 0 groupsC1))) :=
  c1_first_outer_run_is_base.1 Region String regionMPK false shapesC1 groupsC1
    0 regShell (by decide) (by decide) (by decide) (by decide)

/-- Failure form of the assembly: with no outer run, or a first outer
run whose merged geometry is None or invalid, the non-strict assembly
yields None or raises. -/
theorem convert_shapes_fails {G L : Type} (K : MPKernel G L)
    (shapes : List (RoleShape L)) (groups : List (String × Option G × List Int))
    (hg : buildGroups K shapes = .ok groups)
    (h : findOuterRun groups = none ∨
      (∃ b, findOuterRun groups = some (b, none)) ∨
      (∃ b g, findOuterRun groups = some (b, some g) ∧ K.isValid g = false)) :
    convert_shapes_to_multipolygon K shapes false = .ok none ∨
    (∃ e, convert_shapes_to_multipolygon K shapes false = .error e) := by
  by_cases hs : shapes.length < 1
  · left
    unfold convert_shapes_to_multipolygon
    rw [if_pos hs]
    rfl
  · unfold convert_shapes_to_multipolygon
    rw [if_neg hs]
    simp only [Bind.bind, Except.bind, hg]
    rcases h with h | ⟨b, h⟩ | ⟨b, g, h, hv⟩
    · left; rw [h]; rfl
    · right; rw [h]; exact ⟨_, rfl⟩
    · left; rw [h]; simp [hv]

/-- C2: for an area-classified relation (no center summary, inline
members), if the member shapes group into runs with no outer run at
all, or the merged geometry of the first outer run is None or invalid,
then the whole relation fails to assemble: in non-strict mode
`relation_to_shape` returns None — no repaired or partial multipolygon
is produced from an invalid outer base. -/
theorem c2_no_valid_outer_base_yields_none (K : Kernel) (cfg : Config)
    (fuel : Nat) (rel : OsmEl) (ownerIdx : Option Nat) (st : St)
    (ms : List MemberRec) (shapes : List (RoleShape Geo))
    (done : List MemberRec) (st1 : St)
    (groups : List (String × Option Geo × List Int))
    (hcenter : rel.center = none)
    (harea : is_geometry_polygon cfg none none rel = .ok true)
    (hmem : rel.members = some ms)
    (hproc : processMembers K cfg none none false fuel rel.id ownerIdx ms [] [] st
      = .ok ((shapes, done), st1))
    (hgroups : buildGroups (pipelineMPK K false) shapes = .ok groups)
    (houter : findOuterRun groups = none ∨
      (∃ b, findOuterRun groups = some (b, none)) ∨
      (∃ b g, findOuterRun groups = some (b, some g) ∧ K.isValid g = false)) :
    ∃ st2, relation_to_shape K cfg false (fuel + 1) rel ownerIdx st
      = .ok (none, st2) := by
  have hconv := convert_shapes_fails (pipelineMPK K false) shapes groups hgroups houter
  rcases hconv with hcv | ⟨e, hcv⟩
  · have hinner : multipolygon_relation_to_shape K cfg none none false fuel rel ownerIdx st
        = .ok (none, warnSt "Failed to convert computed shapes to multipolygon" st1) := by
      unfold multipolygon_relation_to_shape
      simp only [hmem]
      unfold mpWithMembers
      simp only [hproc, hcv]
      rfl
    refine ⟨warnSt "Failed to convert computed shapes to multipolygon" st1, ?_⟩
    simp only [relation_to_shape, hcenter, harea, hinner]
  · have hinner : multipolygon_relation_to_shape K cfg none none false fuel rel ownerIdx st
        = .error (e, st1) := by
      unfold multipolygon_relation_to_shape
      simp only [hmem]
      unfold mpWithMembers
      simp only [hproc, hcv]
    refine ⟨warnSt ("Failed to convert relation to shape: " ++ e) st1, ?_⟩
    simp only [relation_to_shape, hcenter, harea, hinner]
    rfl

/-- A way member with inline geometry and role inner, for the C2
witness. -/
def memC2 : MemberRec :=
  ⟨"way", some 10, some "inner", none, some [⟨0, 0⟩, ⟨1, 0⟩]⟩

/-- The C2 witness member after being marked used by relation 100. -/
def memC2m : MemberRec := { memC2 with used := some 100 }

/-- A multipolygon relation whose only member run has role inner. -/
def relC2 : OsmEl :=
  { etype := "relation", id := some 100
    tags := some [("type", "multipolygon")], members := some [memC2] }

/-- Initial store for the C2 witness. -/
def stC2 : St := ⟨[relC2], []⟩

/-- Store after the member loop marked the member used. -/
def stC2a : St := ⟨[{ relC2 with members := some [memC2m] }], []⟩

/-- The member shapes the C2 witness relation produces. -/
def shapesC2 : List (RoleShape Geo) :=
  [("inner", .lineString [⟨0, 0⟩, ⟨1, 0⟩], 10)]

/-- The single inner group of the C2 witness. -/
def groupsC2 : List (String × Option Geo × List Int) :=
  [("inner", some (.multiPolygon []), [10])]

/-- Shortcut instance for concrete evaluation of member-loop
results. -/
instance : DecidableEq ((List (RoleShape Geo) × List MemberRec) × St) :=
  inferInstance

/-- Witness for C2: a relation whose only run has role inner fails to
assemble and yields None in non-strict mode. -/
theorem c2_no_valid_outer_base_yields_none_witness :
    ∃ st2, relation_to_shape K0 cfg0 false 3 relC2 (some 0) stC2
      = .ok (none, st2) :=
  c2_no_valid_outer_base_yields_none K0 cfg0 2 relC2 (some 0) stC2 [memC2]
    shapesC2 [memC2m] stC2a groupsC2 rfl (by decide) rfl (by decide) (by decide)
    (Or.inl (by decide))

/-- Two elements share their skeleton when they agree on every field
except the used mark and the member list (the only fields the
conversion mutates). -/
def sameSkel (a b : OsmEl) : Prop :=
  a.etype = b.etype ∧ a.id = b.id ∧ a.lon = b.lon ∧ a.lat = b.lat ∧
  a.nodes = b.nodes ∧ a.geometry = b.geometry ∧ a.center = b.center ∧
  a.tags = b.tags ∧ a.ref = b.ref

/-- Positionwise skeleton equality of stores. -/
def SkelEq (s₁ s₂ : List OsmEl) : Prop := List.Forall₂ sameSkel s₁ s₂

/-- Skeleton equality is reflexive. -/
theorem sameSkel_refl (a : OsmEl) : sameSkel a a :=
  ⟨rfl, rfl, rfl, rfl, rfl, rfl, rfl, rfl, rfl⟩

/-- Skeleton equality is transitive. -/
theorem sameSkel_trans {a b c : OsmEl} (h₁ : sameSkel a b) (h₂ : sameSkel b c) :
    sameSkel a c := by
  obtain ⟨e1, e2, e3, e4, e5, e6, e7, e8, e9⟩ := h₁
  obtain ⟨f1, f2, f3, f4, f5, f6, f7, f8, f9⟩ := h₂
  exact ⟨e1.trans f1, e2.trans f2, e3.trans f3, e4.trans f4, e5.trans f5,
    e6.trans f6, e7.trans f7, e8.trans f8, e9.trans f9⟩

/-- Store skeleton equality is reflexive. -/
theorem SkelEq.refl (s : List OsmEl) : SkelEq s s :=
  List.forall₂_same.mpr (fun a _ => sameSkel_refl a)

/-- Store skeleton equality is transitive. -/
theorem SkelEq.trans {s₁ s₂ s₃ : List OsmEl} (h₁ : SkelEq s₁ s₂)
    (h₂ : SkelEq s₂ s₃) : SkelEq s₁ s₃ := by
  induction h₁ generalizing s₃ with
  | nil =>
    cases h₂
    exact List.Forall₂.nil
  | cons hab h ih =>
    cases h₂ with
    | cons hbc h₂ => exact List.Forall₂.cons (sameSkel_trans hab hbc) (ih h₂)

/-- Updating one element with a skeleton-preserving transform preserves
the store skeleton. -/
theorem SkelEq_set (f : OsmEl → OsmEl) (hf : ∀ el, sameSkel el (f el)) :
    ∀ (store : List OsmEl) (j : Nat),
      SkelEq store (store.set j (f (getEl store j))) := by
  intro store
  induction store with
  | nil => intro j; exact List.Forall₂.nil
  | cons a t ih =>
    intro j
    cases j with
    | zero =>
      simp only [List.set, getEl, List.getD]
      exact List.Forall₂.cons (hf a) (SkelEq.refl t)
    | succ j =>
      simp only [List.set, getEl, List.getD]
      exact List.Forall₂.cons (sameSkel_refl a) (ih j)

/-- Marking an element used preserves the store skeleton. -/
theorem SkelEq_setUsedAt (store : List OsmEl) (j : Nat) (u : Int) :
    SkelEq store (setUsedAt store j u) :=
  SkelEq_set (fun el => { el with used := some u })
    (fun _ => ⟨rfl, rfl, rfl, rfl, rfl, rfl, rfl, rfl, rfl⟩) store j

/-- Rewriting the member list of an element preserves the store
skeleton. -/
theorem SkelEq_writeMembers (mOwner : Option Nat) (ms : List MemberRec) (st : St) :
    SkelEq st.store (writeMembers mOwner ms st).store := by
  cases mOwner with
  | none => exact SkelEq.refl _
  | some o =>
    exact SkelEq_set (fun el => { el with members := some ms })
      (fun _ => ⟨rfl, rfl, rfl, rfl, rfl, rfl, rfl, rfl, rfl⟩) st.store o

/-- Skeleton-equal stores give the same answers to `lastIdxAux` for a
skeleton-determined predicate. -/
theorem lastIdxAux_skel (p : OsmEl → Bool)
    (hp : ∀ a b, sameSkel a b → p a = p b) :
    ∀ {s₁ s₂ : List OsmEl}, SkelEq s₁ s₂ → ∀ k,
      lastIdxAux p s₁ k = lastIdxAux p s₂ k := by
  intro s₁ s₂ h
  induction h with
  | nil => intro k; rfl
  | cons hab hrest ih =>
    intro k
    unfold lastIdxAux
    rw [ih (k + 1), hp _ _ hab]

/-- Skeleton-equal stores resolve references identically. -/
theorem lookupIdx_skel {s₁ s₂ : List OsmEl} (h : SkelEq s₁ s₂)
    (t : String) (i : Int) : lookupIdx t i s₁ = lookupIdx t i s₂ := by
  unfold lookupIdx
  cases isRefType t
  · rfl
  · simp only [if_true]
    refine lastIdxAux_skel (fun el => el.etype == t && el.id == some i)
      (fun a b hab => ?_) h 0
    show (a.etype == t && a.id == some i) = (b.etype == t && b.id == some i)
    rw [hab.1, hab.2.1]

/-- Positions of skeleton-equal stores hold skeleton-equal elements. -/
theorem getEl_skel {s₁ s₂ : List OsmEl} (h : SkelEq s₁ s₂) (j : Nat) :
    sameSkel (getEl s₁ j) (getEl s₂ j) := by
  induction h generalizing j with
  | nil => exact sameSkel_refl _
  | cons hab hrest ih =>
    cases j with
    | zero => exact hab
    | succ j => exact ih j

/-- Specification of `lastIdxAux`: a hit is a position whose element
satisfies the predicate. -/
theorem lastIdxAux_spec (p : OsmEl → Bool) :
    ∀ (l : List OsmEl) (k j : Nat), lastIdxAux p l k = some j →
      ∃ j', j = k + j' ∧ j' < l.length ∧ p (getEl l j') = true := by
  intro l
  induction l with
  | nil =>
    intro k j h
    exact absurd h (by simp [lastIdxAux])
  | cons a t ih =>
    intro k j h
    unfold lastIdxAux at h
    cases hrec : lastIdxAux p t (k + 1) with
    | some j0 =>
      rw [hrec] at h
      have hj0 : j0 = j := by simpa using h
      subst hj0
      obtain ⟨j', hj, hlt, hp⟩ := ih (k + 1) j0 hrec
      refine ⟨j' + 1, by omega, by simp; omega, ?_⟩
      simpa [getEl, List.getD] using hp
    | none =>
      rw [hrec] at h
      by_cases hpa : p a = true
      · rw [if_pos hpa] at h
        have : k = j := by simpa using h
        subst this
        refine ⟨0, by omega, by simp, ?_⟩
        simpa [getEl, List.getD] using hpa
      · rw [if_neg hpa] at h
        exact absurd h (by simp)

/-- The state of an ok result. -/
theorem stOf_ok {α : Type} (a : α) (st : St) : stOf (.ok (a, st)) = st := rfl

/-- The state of a raised result. -/
theorem stOf_error {α : Type} (e : String) (st : St) :
    stOf (α := α) (.error (e, st)) = st := rfl

/-- A soft failure only logs: the store is unchanged. -/
theorem warnFail_store {α : Type} (raiseOn : Bool) (m : String) (v : α) (st : St) :
    (stOf (warnFail raiseOn m v st)).store = st.store := by
  unfold warnFail warnSt stOf
  cases raiseOn <;> rfl

/-- The tail of the way conversion never touches the store. -/
theorem wayFinish_store (K : Kernel) (cfg : Config) (ak? : Option AreaKeys)
    (pf? : Option PolyFeatures) (raiseOn : Bool) (way : OsmEl)
    (coords : List Coord) (st : St) :
    (stOf (wayFinish K cfg ak? pf? raiseOn way coords st)).store = st.store := by
  unfold wayFinish
  split
  · exact warnFail_store raiseOn _ _ _
  · split
    · rfl
    · split
      · rfl
      · exact warnFail_store raiseOn _ _ _
    · rfl

/-- Node resolution only marks nodes used: the store skeleton is
preserved. -/
theorem resolveNodes_skel (raiseOn : Bool) (wid : Option Int) :
    ∀ (ns : List Int) (acc : List Coord) (st : St),
      SkelEq st.store (stOf (resolveNodes raiseOn wid ns acc st)).store := by
  intro ns
  induction ns with
  | nil => intro acc st; exact SkelEq.refl _
  | cons r rest ih =>
    intro acc st
    unfold resolveNodes
    split
    · split
      · exact SkelEq.refl _
      · split
        · exact SkelEq.trans (SkelEq_setUsedAt st.store _ _)
            (ih _ ⟨setUsedAt st.store _ _, st.diags⟩)
        · exact SkelEq_setUsedAt st.store _ _
    · rw [warnFail_store]
      exact SkelEq.refl _

/-- Marking a referenced way used preserves the store skeleton. -/
theorem markRef_skel (way : OsmEl) (j : Nat) (st : St) :
    SkelEq st.store (markRef way j st).2.store := by
  unfold markRef
  split
  · exact SkelEq_setUsedAt st.store j _
  · split
    · exact SkelEq_setUsedAt st.store j _
    · exact SkelEq.refl _

/-- The way conversion only marks elements used: the store skeleton is
preserved. -/
theorem way_skel (K : Kernel) (cfg : Config) (ak? : Option AreaKeys)
    (pf? : Option PolyFeatures) (raiseOn : Bool) :
    ∀ (fuel : Nat) (way : OsmEl) (st : St),
      SkelEq st.store (stOf (way_to_shape K cfg ak? pf? raiseOn fuel way st)).store := by
  intro fuel
  induction fuel with
  | zero => intro way st; exact SkelEq.refl _
  | succ fuel ih =>
    intro way st
    unfold way_to_shape
    split
    · exact SkelEq.refl _
    · split
      · rw [wayFinish_store]
        exact SkelEq.refl _
      · split
        · rename_i ns hns
          have h2 := resolveNodes_skel raiseOn way.id ns [] st
          split
          · rename_i e heq
            rw [heq] at h2
            exact h2
          · rename_i st1 heq
            rw [heq] at h2
            exact h2
          · rename_i coords st1 heq
            rw [heq] at h2
            rw [wayFinish_store]
            exact h2
        · split
          · rename_i rid hrid
            split
            · rw [warnFail_store]
              exact SkelEq.refl _
            · rename_i j hj
              have h1 := markRef_skel way j st
              have h2 := ih (markRef way j st).1 (markRef way j st).2
              split
              · rename_i e heq
                rw [heq] at h2
                exact SkelEq.trans h1 h2
              · rename_i st2 heq
                rw [heq] at h2
                rw [warnFail_store]
                exact SkelEq.trans h1 h2
              · rename_i rw0 st2 heq
                rw [heq] at h2
                split
                · exact SkelEq.trans h1 h2
                · rw [wayFinish_store]
                  exact SkelEq.trans h1 h2
          · rw [warnFail_store]
            exact SkelEq.refl _

/-- Node conversion never touches the store. -/
theorem node_to_shape_store (el : OsmEl) (st : St) :
    (stOf (node_to_shape el st)).store = st.store := by
  unfold node_to_shape
  split <;> rfl

/-- The multipolygon member loop only marks members and referenced
elements used: the store skeleton is preserved. -/
theorem processMembers_skel (K : Kernel) (cfg : Config) (ak? : Option AreaKeys)
    (pf? : Option PolyFeatures) (raiseOn : Bool) (fuel : Nat)
    (relId : Option Int) (mOwner : Option Nat) :
    ∀ (todo done : List MemberRec) (shapes : List (RoleShape Geo)) (st : St),
      SkelEq st.store
        (stOf (processMembers K cfg ak? pf? raiseOn fuel relId mOwner todo done shapes st)).store := by
  intro todo
  induction todo with
  | nil => intro done shapes st; exact SkelEq.refl _
  | cons m todo ih =>
    intro done shapes st
    unfold processMembers
    split
    · split
      · exact SkelEq.refl _
      · exact ih (done ++ [m]) shapes (warnSt "Multipolygon member not handled" st)
    · split
      · exact SkelEq.refl _
      · rename_i hway rid
        have h1 := SkelEq_writeMembers mOwner
          ((done ++ [{ m with used := some rid }]) ++ todo) st
        have h2 := way_skel K cfg ak? pf? raiseOn fuel { m with used := some rid }.toEl
          (writeMembers mOwner ((done ++ [{ m with used := some rid }]) ++ todo) st)
        split
        · rename_i e heq
          rw [heq] at h2
          exact SkelEq.trans h1 h2
        · rename_i st2 heq
          rw [heq] at h2
          split
          · exact SkelEq.trans h1 h2
          · have h3 := ih (done ++ [⟨m.mtype, m.ref, m.role, some rid, m.geometry⟩])
              shapes (warnSt "Failed to make way in relation" st2)
            exact SkelEq.trans (SkelEq.trans h1 h2) h3
        · rename_i ws st2 heq
          rw [heq] at h2
          split
          · exact SkelEq.trans h1 h2
          · rename_i role hrole
            split
            · exact SkelEq.trans h1 h2
            · rename_i r hr
              have h3 := ih (done ++ [⟨m.mtype, m.ref, m.role, some rid, m.geometry⟩])
                (shapes ++ [(role, toLinePart ws.shape, r)]) st2
              exact SkelEq.trans (SkelEq.trans h1 h2) h3

/-- The multipolygon tail after the member loop performs only pure
geometry work: the store skeleton is preserved. -/
theorem mpWithMembers_skel (K : Kernel) (cfg : Config) (ak? : Option AreaKeys)
    (pf? : Option PolyFeatures) (raiseOn : Bool) (fuel : Nat) (rel : OsmEl)
    (mOwner : Option Nat) (ms : List MemberRec) (st : St) :
    SkelEq st.store
      (stOf (mpWithMembers K cfg ak? pf? raiseOn fuel rel mOwner ms st)).store := by
  unfold mpWithMembers
  have h := processMembers_skel K cfg ak? pf? raiseOn fuel rel.id mOwner ms [] [] st
  split
  · rename_i e heq
    rw [heq] at h
    exact h
  · rename_i shapes other st1 heq
    rw [heq] at h
    split
    · exact h
    · rw [warnFail_store]
      exact h
    · split
      · exact h
      · split
        · exact h
        · exact h

/-- The multipolygon relation conversion preserves the store
skeleton. -/
theorem multipolygon_skel (K : Kernel) (cfg : Config) (ak? : Option AreaKeys)
    (pf? : Option PolyFeatures) (raiseOn : Bool) (fuel : Nat) (rel : OsmEl)
    (ownerIdx : Option Nat) (st : St) :
    SkelEq st.store
      (stOf (multipolygon_relation_to_shape K cfg ak? pf? raiseOn fuel rel ownerIdx st)).store := by
  unfold multipolygon_relation_to_shape
  split
  · exact mpWithMembers_skel K cfg ak? pf? raiseOn fuel rel ownerIdx _ st
  · split
    · exact SkelEq.refl _
    · split
      · split
        · exact SkelEq.refl _
        · exact SkelEq.refl _
      · split
        · exact SkelEq.refl _
        · exact mpWithMembers_skel K cfg ak? pf? raiseOn fuel rel _ _ st

/-- Transport a store equality into skeleton equality. -/
theorem eq_store_skel {st X : St} (h : X.store = st.store) :
    SkelEq st.store X.store := by
  rw [h]
  exact SkelEq.refl _

/-- The whole element/relation conversion family only marks elements
used and rewrites member lists: the store skeleton is preserved, at
every fuel level and in both failure modes. -/
theorem convert_skel :
    ∀ (fuel : Nat) (K : Kernel) (cfg : Config) (ak? : Option AreaKeys)
      (pf? : Option PolyFeatures) (raiseOn : Bool),
      (∀ el ownerIdx st,
        SkelEq st.store (stOf (element_to_shape K cfg ak? pf? raiseOn fuel el ownerIdx st)).store) ∧
      (∀ rel ownerIdx st,
        SkelEq st.store (stOf (relation_to_shape K cfg raiseOn fuel rel ownerIdx st)).store) ∧
      (∀ rel ownerIdx st,
        SkelEq st.store (stOf (multiline_realation_to_shape K cfg ak? pf? raiseOn fuel rel ownerIdx st)).store) ∧
      (∀ rel ms st,
        SkelEq st.store (stOf (mlRun K cfg ak? pf? raiseOn fuel rel ms st)).store) ∧
      (∀ relId todo lines st,
        SkelEq st.store (stOf (mlLoop K cfg ak? pf? raiseOn fuel relId todo lines st)).store) ∧
      (∀ relId todo lines res,
        SkelEq (stOf res).store
          (stOf (mlAfter K cfg ak? pf? raiseOn fuel relId todo lines res)).store) := by
  intro fuel
  induction fuel with
  | zero =>
    intro K cfg ak? pf? raiseOn
    refine ⟨?_, ?_, ?_, ?_, ?_, ?_⟩ <;> intros <;> exact SkelEq.refl _
  | succ fuel ih =>
    intro K cfg ak? pf? raiseOn
    refine ⟨?_, ?_, ?_, ?_, ?_, ?_⟩
    · intro el ownerIdx st
      unfold element_to_shape
      split
      · have hn := node_to_shape_store el st
        split
        · rename_i e heq
          rw [heq] at hn
          exact eq_store_skel hn
        · rename_i sh st1 heq
          rw [heq] at hn
          exact eq_store_skel hn
      · split
        · exact way_skel K cfg ak? pf? raiseOn fuel el st
        · split
          · exact (ih K cfg ak? pf? raiseOn).2.1 el ownerIdx st
          · exact SkelEq.refl _
    · intro rel ownerIdx st
      unfold relation_to_shape
      split
      · exact SkelEq.refl _
      · cases hcls : is_geometry_polygon cfg none none rel with
        | error e =>
          cases raiseOn <;> exact SkelEq.refl _
        | ok b =>
          cases b with
          | true =>
            have h := multipolygon_skel K cfg none none raiseOn fuel rel ownerIdx st
            cases hmp : multipolygon_relation_to_shape K cfg none none raiseOn fuel rel ownerIdx st with
            | ok r =>
              rw [hmp] at h
              exact h
            | error pe =>
              rw [hmp] at h
              obtain ⟨msg, stE⟩ := pe
              cases raiseOn <;> exact h
          | false =>
            have h := (ih K cfg none none raiseOn).2.2.1 rel ownerIdx st
            cases hml : multiline_realation_to_shape K cfg none none raiseOn fuel rel ownerIdx st with
            | ok r =>
              rw [hml] at h
              exact h
            | error pe =>
              rw [hml] at h
              obtain ⟨msg, stE⟩ := pe
              cases raiseOn <;> exact h
    · intro rel ownerIdx st
      unfold multiline_realation_to_shape
      split
      · exact (ih K cfg ak? pf? raiseOn).2.2.2.1 rel _ st
      · split
        · exact SkelEq.refl _
        · split
          · cases raiseOn <;> exact SkelEq.refl _
          · split
            · exact SkelEq.refl _
            · exact (ih K cfg ak? pf? raiseOn).2.2.2.1 rel _ st
    · intro rel ms st
      unfold mlRun
      have h := (ih K cfg ak? pf? raiseOn).2.2.2.2.1 rel.id ms [] st
      split
      · rename_i e heq
        rw [heq] at h
        exact h
      · rename_i lines st2 heq
        rw [heq] at h
        split
        · rw [warnFail_store]
          exact h
        · split
          · exact h
          · exact h
    · intro relId todo lines st
      cases todo with
      | nil => exact SkelEq.refl _
      | cons m todo =>
        unfold mlLoop
        split
        · exact SkelEq.trans (way_skel K cfg ak? pf? raiseOn fuel m.toEl st)
            ((ih K cfg ak? pf? raiseOn).2.2.2.2.2 relId todo lines _)
        · split
          · split
            · exact SkelEq.refl _
            · rename_i rid hrid
              split
              · rename_i j hj
                cases relId with
                | none => exact SkelEq.refl _
                | some ri =>
                  exact SkelEq.trans (SkelEq_setUsedAt st.store j ri)
                    (SkelEq.trans
                      ((ih K cfg ak? pf? raiseOn).1 m.toEl none
                        ⟨setUsedAt st.store j ri, st.diags⟩)
                      ((ih K cfg ak? pf? raiseOn).2.2.2.2.2 (some ri) todo lines _))
              · exact SkelEq.trans
                  ((ih K cfg ak? pf? raiseOn).1 m.toEl none
                    (warnSt "Element not found in refs_index" st))
                  ((ih K cfg ak? pf? raiseOn).2.2.2.2.2 relId todo lines _)
          · split
            · exact SkelEq.refl _
            · exact (ih K cfg ak? pf? raiseOn).2.2.2.2.1 relId todo lines
                (warnSt "multiline member not handled" st)
    · intro relId todo lines res
      cases res with
      | error e => exact SkelEq.refl _
      | ok v =>
        obtain ⟨ws?, st1⟩ := v
        cases ws? with
        | none =>
          cases raiseOn with
          | true => exact SkelEq.refl _
          | false =>
            exact (ih K cfg ak? pf? false).2.2.2.2.1 relId todo lines
              (warnSt "Failed to make way in relation" st1)
        | some ws =>
          exact (ih K cfg ak? pf? raiseOn).2.2.2.2.1 relId todo
            (lines ++ [toLinePart ws.shape]) st1

/-- A reference hit points at an element of the requested type and
id. -/
theorem lookupIdx_spec {t : String} {i : Int} {store : List OsmEl} {j : Nat}
    (h : lookupIdx t i store = some j) :
    j < store.length ∧ (getEl store j).etype = t ∧ (getEl store j).id = some i := by
  unfold lookupIdx at h
  cases hrt : isRefType t with
  | false =>
    rw [hrt] at h
    simp at h
  | true =>
    rw [hrt] at h
    simp only [if_true] at h
    obtain ⟨j', hj, hlt, hp⟩ := lastIdxAux_spec _ store 0 j h
    have hj' : j' = j := by omega
    subst hj'
    simp only [Bool.and_eq_true, beq_iff_eq] at hp
    exact ⟨hlt, hp.1, hp.2⟩

/-- Membership-wise transfer of a skeleton-determined property along
skeleton equality. -/
theorem skel_mem_transfer {P : OsmEl → Prop}
    (hP : ∀ a b, sameSkel a b → P a → P b) :
    ∀ {s₁ s₂ : List OsmEl}, SkelEq s₁ s₂ →
      (∀ el ∈ s₁, P el) → ∀ el ∈ s₂, P el := by
  intro s₁ s₂ h
  induction h with
  | nil =>
    intro _ el hel
    simp at hel
  | cons hab hrest ih =>
    intro hall el hel
    rcases List.mem_cons.mp hel with rfl | hel
    · exact hP _ _ hab (hall _ (List.mem_cons_self _ _))
    · exact ih (fun e he => hall e (List.mem_cons_of_mem _ he)) el hel

/-- The node well-formedness property is skeleton-determined. -/
theorem nodeWF_skel (a b : OsmEl) (hab : sameSkel a b)
    (ha : a.etype = "node" → a.lon.isSome ∧ a.lat.isSome) :
    b.etype = "node" → b.lon.isSome ∧ b.lat.isSome := by
  intro hb
  rw [← hab.1] at hb
  rw [← hab.2.2.1, ← hab.2.2.2.1]
  exact ha hb

/-- With a node id missing from the index, node resolution warns and
yields None in non-strict mode, and raises in strict mode (provided
the store's nodes carry coordinates, so that resolution cannot die
earlier for another reason). -/
theorem resolveNodes_missing (wid : Int) :
    ∀ (ns : List Int) (acc : List Coord) (st : St),
      (∀ el ∈ st.store, el.etype = "node" → el.lon.isSome ∧ el.lat.isSome) →
      (∃ r ∈ ns, lookupIdx "node" r st.store = none) →
      (∃ st', resolveNodes false (some wid) ns acc st = .ok (none, st') ∧
        "Node not found in index" ∈ st'.diags) ∧
      (∃ st'', resolveNodes true (some wid) ns acc st
        = .error ("Node not found in index", st'')) := by
  intro ns
  induction ns with
  | nil =>
    intro acc st _ hmiss
    simp at hmiss
  | cons r rest ih =>
    intro acc st hwf hmiss
    cases hlook : lookupIdx "node" r st.store with
    | none =>
      constructor
      · refine ⟨warnSt "Node not found in index" st, ?_, ?_⟩
        · unfold resolveNodes
          rw [hlook]
          rfl
        · unfold warnSt
          simp
      · refine ⟨warnSt "Node not found in index" st, ?_⟩
        unfold resolveNodes
        rw [hlook]
        rfl
    | some j =>
      obtain ⟨hlt, htype, hidj⟩ := lookupIdx_spec hlook
      have hmem : getEl st.store j ∈ st.store := by
        unfold getEl
        rw [List.getD_eq_getElem st.store dummyEl hlt]
        exact List.getElem_mem hlt
      obtain ⟨hlon, hlat⟩ := hwf _ hmem htype
      obtain ⟨lo, hlo⟩ := Option.isSome_iff_exists.mp hlon
      obtain ⟨la, hla⟩ := Option.isSome_iff_exists.mp hlat
      have hskel := SkelEq_setUsedAt st.store j wid
      have hwf1 : ∀ el ∈ (setUsedAt st.store j wid),
          el.etype = "node" → el.lon.isSome ∧ el.lat.isSome :=
        skel_mem_transfer nodeWF_skel hskel hwf
      have hmiss1 : ∃ r' ∈ rest, lookupIdx "node" r' (setUsedAt st.store j wid) = none := by
        obtain ⟨r', hr', hnone⟩ := hmiss
        rcases List.mem_cons.mp hr' with rfl | hr'
        · rw [hlook] at hnone
          cases hnone
        · exact ⟨r', hr', by rw [← lookupIdx_skel hskel]; exact hnone⟩
      have hrec := ih (acc ++ [⟨lo, la⟩]) ⟨setUsedAt st.store j wid, st.diags⟩ hwf1 hmiss1
      constructor
      · obtain ⟨st', h1, hdiag⟩ := hrec.1
        refine ⟨st', ?_, hdiag⟩
        unfold resolveNodes
        simp only [hlook, hlo, hla]
        exact h1
      · obtain ⟨st'', h2⟩ := hrec.2
        refine ⟨st'', ?_⟩
        unfold resolveNodes
        simp only [hlook, hlo, hla]
        exact h2

/-- C7: for a way whose coordinates come from a declared node-id list,
if any referenced node id is absent from the reference index then in
non-strict mode the conversion produces no shape for that way (None)
and a warning diagnostic is emitted (the run continues), while in
strict mode an exception is raised. The store's nodes are assumed to
carry coordinates so the failure is the unresolved reference. -/
theorem c7_unresolved_node_reference (K : Kernel) (cfg : Config)
    (ak? : Option AreaKeys) (pf? : Option PolyFeatures) (fuel : Nat)
    (way : OsmEl) (ns : List Int) (wid : Int) (st : St)
    (hcenter : way.center = none)
    (hgeom : way.geometry = none ∨ way.geometry = some [])
    (hnodes : way.nodes = some ns) (hne : ns ≠ [])
    (hid : way.id = some wid)
    (hwf : ∀ el ∈ st.store, el.etype = "node" → el.lon.isSome ∧ el.lat.isSome)
    (hmiss : ∃ r ∈ ns, lookupIdx "node" r st.store = none) :
    (∃ st', way_to_shape K cfg ak? pf? false (fuel + 1) way st = .ok (none, st') ∧
      "Node not found in index" ∈ st'.diags) ∧
    (∃ st'', way_to_shape K cfg ak? pf? true (fuel + 1) way st
      = .error ("Node not found in index", st'')) := by
  have hge : geomSource way = none := by
    unfold geomSource
    rcases hgeom with hg | hg <;> rw [hg]
    rfl
  have hns : nodesSource way = some ns := by
    unfold nodesSource
    rw [hnodes]
    have hlen : ns.length > 0 := by
      cases ns with
      | nil => exact absurd rfl hne
      | cons a t => simp
    simp only [hlen, if_pos]
  have hrn := resolveNodes_missing wid ns [] st hwf hmiss
  constructor
  · obtain ⟨st', h1, hdiag⟩ := hrn.1
    refine ⟨st', ?_, hdiag⟩
    unfold way_to_shape
    simp only [hcenter, hge, hns, hid, h1]
  · obtain ⟨st'', h2⟩ := hrn.2
    refine ⟨st'', ?_⟩
    unfold way_to_shape
    simp only [hcenter, hge, hns, hid, h2]

/-- Store for the C7 witness: one node and the way referencing it plus
a missing node id 99. -/
def stC7 : St :=
  ⟨[{ etype := "node", id := some 1, lat := some 0, lon := some 0 },
    { etype := "way", id := some 10, nodes := some [1, 99] }], []⟩

/-- The C7 witness way. -/
def wayC7 : OsmEl := { etype := "way", id := some 10, nodes := some [1, 99] }

/-- Witness for C7: node 99 is not in the index, so the way converts to
None with a warning in non-strict mode and raises in strict mode. -/
theorem c7_unresolved_node_reference_witness :
    (∃ st', way_to_shape K0 cfg0 none none false 2 wayC7 stC7 = .ok (none, st') ∧
      "Node not found in index" ∈ st'.diags) ∧
    (∃ st'', way_to_shape K0 cfg0 none none true 2 wayC7 stC7
      = .error ("Node not found in index", st'')) :=
  c7_unresolved_node_reference K0 cfg0 none none 1 wayC7 [1, 99] 10 stC7
    rfl (Or.inl rfl) rfl (by decide) rfl (by decide)
    ⟨99, by decide, by decide⟩

/-- Reading back a position just written. -/
theorem getEl_set_self (store : List OsmEl) (j : Nat) (x : OsmEl)
    (h : j < store.length) : getEl (store.set j x) j = x := by
  unfold getEl
  induction store generalizing j with
  | nil => simp at h
  | cons a t ih =>
    cases j with
    | zero => rfl
    | succ j =>
      simp only [List.set, List.getD]
      exact ih j (by simpa using h)

/-- Reading an untouched position. -/
theorem getEl_set_ne (store : List OsmEl) (j' : Nat) (x : OsmEl) (j : Nat)
    (h : j' ≠ j) : getEl (store.set j' x) j = getEl store j := by
  unfold getEl
  induction store generalizing j j' with
  | nil => rfl
  | cons a t ih =>
    cases j' with
    | zero =>
      cases j with
      | zero => exact absurd rfl h
      | succ j => rfl
    | succ j' =>
      cases j with
      | zero => rfl
      | succ j =>
        simp only [List.set, List.getD]
        exact ih j' j (fun hh => h (by rw [hh]))

/-- Skeleton-equal stores have the same length. -/
theorem SkelEq.length_eq {s₁ s₂ : List OsmEl} (h : SkelEq s₁ s₂) :
    s₁.length = s₂.length :=
  List.Forall₂.length_eq h

/-- A used mark with the same value persists through further marking. -/
theorem mark_persist (store : List OsmEl) (j' : Nat) (u : Int) (j : Nat)
    (h : (getEl store j).used = some u) :
    (getEl (setUsedAt store j' u) j).used = some u := by
  by_cases hij : j' = j
  · subst hij
    by_cases hlt : j' < store.length
    · unfold setUsedAt
      rw [getEl_set_self store j' _ hlt]
    · unfold setUsedAt
      rw [List.set_eq_of_length_le (by omega)]
      exact h
  · unfold setUsedAt
    rw [getEl_set_ne store j' _ j hij]
    exact h

/-- Through node resolution with a fixed way id, a used mark with that
id persists. -/
theorem resolveNodes_mark_persist (wid : Int) :
    ∀ (ns : List Int) (acc : List Coord) (st : St) (j : Nat),
      (getEl st.store j).used = some wid →
      (getEl (stOf (resolveNodes false (some wid) ns acc st)).store j).used = some wid := by
  intro ns
  induction ns with
  | nil => intro acc st j h; exact h
  | cons r rest ih =>
    intro acc st j h
    unfold resolveNodes
    cases hl : lookupIdx "node" r st.store with
    | none =>
      simp only [hl]
      rw [warnFail_store]
      exact h
    | some j0 =>
      simp only [hl]
      cases hlo : (getEl st.store j0).lon with
      | none =>
        cases hla : (getEl st.store j0).lat with
        | none =>
          simp only [hlo, hla]
          exact mark_persist st.store j0 wid j h
        | some la =>
          simp only [hlo, hla]
          exact mark_persist st.store j0 wid j h
      | some lo =>
        cases hla : (getEl st.store j0).lat with
        | none =>
          simp only [hlo, hla]
          exact mark_persist st.store j0 wid j h
        | some la =>
          simp only [hlo, hla]
          exact ih _ ⟨setUsedAt st.store j0 wid, st.diags⟩ j
            (mark_persist st.store j0 wid j h)

/-- Successful node resolution with a way id marks every referenced
node as used by that way id in the final store. -/
theorem resolveNodes_marks (wid : Int) :
    ∀ (ns : List Int) (acc : List Coord) (st : St) (coords : List Coord) (st' : St),
      resolveNodes false (some wid) ns acc st = .ok (some coords, st') →
      ∀ r ∈ ns, ∃ j, lookupIdx "node" r st'.store = some j ∧
        (getEl st'.store j).used = some wid := by
  intro ns
  induction ns with
  | nil =>
    intro acc st coords st' hres r hr
    cases hr
  | cons r0 rest ih =>
    intro acc st coords st' hres r hr
    unfold resolveNodes at hres
    cases hl : lookupIdx "node" r0 st.store with
    | none =>
      rw [hl] at hres
      simp [warnFail] at hres
    | some j0 =>
      rw [hl] at hres
      cases hlo : (getEl st.store j0).lon with
      | none =>
        cases hla : (getEl st.store j0).lat with
        | none => simp only [hlo, hla] at hres; simp at hres
        | some la => simp only [hlo, hla] at hres; simp at hres
      | some lo =>
        cases hla : (getEl st.store j0).lat with
        | none => simp only [hlo, hla] at hres; simp at hres
        | some la =>
          simp only [hlo, hla] at hres
          have hlen : j0 < st.store.length := (lookupIdx_spec hl).1
          have hused1 :
              (getEl (setUsedAt st.store j0 wid) j0).used = some wid := by
            unfold setUsedAt
            rw [getEl_set_self st.store j0 _ hlen]
          rcases List.mem_cons.mp hr with rfl | hr'
          · have hskel1 : SkelEq st.store (setUsedAt st.store j0 wid) :=
              SkelEq_setUsedAt st.store j0 wid
            have hskel2 :
                SkelEq (setUsedAt st.store j0 wid)
                  (stOf (resolveNodes false (some wid) rest (acc ++ [⟨lo, la⟩])
                    ⟨setUsedAt st.store j0 wid, st.diags⟩)).store :=
              resolveNodes_skel false (some wid) rest (acc ++ [⟨lo, la⟩])
                ⟨setUsedAt st.store j0 wid, st.diags⟩
            have hmark :=
              resolveNodes_mark_persist wid rest (acc ++ [⟨lo, la⟩])
                ⟨setUsedAt st.store j0 wid, st.diags⟩ j0 hused1
            rw [hres] at hskel2 hmark
            simp only [stOf] at hskel2 hmark
            refine ⟨j0, ?_, hmark⟩
            rw [← lookupIdx_skel hskel2, ← lookupIdx_skel hskel1]
            exact hl
          · exact ih (acc ++ [⟨lo, la⟩]) ⟨setUsedAt st.store j0 wid, st.diags⟩
              coords st' hres r hr'

/-- Marking one slot leaves every other slot untouched. -/
theorem setUsedAt_touch (store : List OsmEl) (j : Nat) (u : Int) (o : Nat)
    (hne : j ≠ o) : getEl (setUsedAt store j u) o = getEl store o := by
  unfold setUsedAt
  exact getEl_set_ne store j _ o hne

/-- Marking a referenced element leaves every other slot untouched. -/
theorem markRef_touch (way : OsmEl) (j : Nat) (st : St) (o : Nat)
    (hne : j ≠ o) :
    getEl (markRef way j st).2.store o = getEl st.store o := by
  unfold markRef
  split
  · exact setUsedAt_touch st.store j _ o hne
  · split
    · exact setUsedAt_touch st.store j _ o hne
    · rfl

/-- The marked referent keeps the referent's element type. -/
theorem markRef_etype (way : OsmEl) (j : Nat) (st : St) :
    (markRef way j st).1.etype = (getEl st.store j).etype := by
  unfold markRef
  split
  · rfl
  · split
    · rfl
    · rfl

/-- Node resolution only writes node-typed slots: any slot of a
different element type is left untouched. -/
theorem resolveNodes_touch (raiseOn : Bool) (wid : Option Int) :
    ∀ (ns : List Int) (acc : List Coord) (st : St) (o : Nat),
      (getEl st.store o).etype ≠ "node" →
      getEl (stOf (resolveNodes raiseOn wid ns acc st)).store o = getEl st.store o := by
  intro ns
  induction ns with
  | nil => intro acc st o ho; rfl
  | cons r rest ih =>
    intro acc st o ho
    unfold resolveNodes
    cases hl : lookupIdx "node" r st.store with
    | none =>
      simp only [hl]
      rw [warnFail_store]
    | some j =>
      have hspec := lookupIdx_spec hl
      have hne : j ≠ o := by
        intro h
        exact ho (by rw [← h]; exact hspec.2.1)
      simp only [hl]
      cases wid with
      | none => rfl
      | some w =>
        cases hlo : (getEl st.store j).lon with
        | none =>
          cases hla : (getEl st.store j).lat with
          | none =>
            simp only [hlo, hla]
            exact setUsedAt_touch st.store j w o hne
          | some la =>
            simp only [hlo, hla]
            exact setUsedAt_touch st.store j w o hne
        | some lo =>
          cases hla : (getEl st.store j).lat with
          | none =>
            simp only [hlo, hla]
            exact setUsedAt_touch st.store j w o hne
          | some la =>
            simp only [hlo, hla]
            have hstep := setUsedAt_touch st.store j w o hne
            have ho1 :
                (getEl (⟨setUsedAt st.store j w, st.diags⟩ : St).store o).etype ≠ "node" := by
              rw [hstep]
              exact ho
            exact (ih (acc ++ [{ lon := lo, lat := la }])
              ⟨setUsedAt st.store j w, st.diags⟩ o ho1).trans hstep

/-- The way conversion only writes slots of its own element type and
node-typed slots: a relation-typed slot is left untouched by converting
a non-relation element. -/
theorem way_touch (K : Kernel) (cfg : Config) (ak? : Option AreaKeys)
    (pf? : Option PolyFeatures) (raiseOn : Bool) :
    ∀ (fuel : Nat) (way : OsmEl) (st : St) (o : Nat),
      way.etype ≠ "relation" →
      (getEl st.store o).etype = "relation" →
      getEl (stOf (way_to_shape K cfg ak? pf? raiseOn fuel way st)).store o
        = getEl st.store o := by
  intro fuel
  induction fuel with
  | zero => intro way st o hwt ho; rfl
  | succ fuel ih =>
    intro way st o hwt ho
    unfold way_to_shape
    split
    · rfl
    · split
      · rw [wayFinish_store]
      · split
        · rename_i ns hns
          have hnode : (getEl st.store o).etype ≠ "node" := by
            rw [ho]
            intro h
            exact absurd h (by decide)
          have h2 := resolveNodes_touch raiseOn way.id ns [] st o hnode
          split
          · rename_i e heq
            rw [heq] at h2
            exact h2
          · rename_i st1 heq
            rw [heq] at h2
            exact h2
          · rename_i coords st1 heq
            rw [heq] at h2
            rw [wayFinish_store]
            exact h2
        · split
          · rename_i rid hrid
            split
            · rw [warnFail_store]
            · rename_i j hj
              have hspec := lookupIdx_spec hj
              have hne : j ≠ o := by
                intro h
                exact hwt (by rw [← hspec.2.1, h, ho])
              have hmr := markRef_touch way j st o hne
              have hwt1 : (markRef way j st).1.etype ≠ "relation" := by
                rw [markRef_etype, hspec.2.1]
                exact hwt
              have ho1 : (getEl (markRef way j st).2.store o).etype = "relation" := by
                rw [hmr]
                exact ho
              have h2 := ih (markRef way j st).1 (markRef way j st).2 o hwt1 ho1
              split
              · rename_i e heq
                rw [heq] at h2
                exact h2.trans hmr
              · rename_i st2 heq
                rw [heq] at h2
                rw [warnFail_store]
                exact h2.trans hmr
              · rename_i rw0 st2 heq
                rw [heq] at h2
                split
                · exact h2.trans hmr
                · rw [wayFinish_store]
                  exact h2.trans hmr
          · rw [warnFail_store]

/-- The member list with every way-typed member marked used by `rid`,
exactly as the member loop rewrites it. -/
def markWays (rid : Int) : List MemberRec → List MemberRec
  | [] => []
  | m :: rest =>
    (if m.mtype != "way" then m else { m with used := some rid }) :: markWays rid rest

/-- A successful non-strict member loop over a relation-typed owner slot
leaves that slot's member list equal to the input list with every
way-typed member marked used by the relation id. -/
theorem processMembers_marks (K : Kernel) (cfg : Config) (ak? : Option AreaKeys)
    (pf? : Option PolyFeatures) (fuel : Nat) (rid : Int) (o : Nat) :
    ∀ (todo done : List MemberRec) (shapes : List (RoleShape Geo)) (st : St)
      (res : List (RoleShape Geo) × List MemberRec) (st' : St),
      (getEl st.store o).etype = "relation" →
      o < st.store.length →
      (getEl st.store o).members = some (done ++ todo) →
      processMembers K cfg ak? pf? false fuel (some rid) (some o) todo done shapes st
        = .ok (res, st') →
      (getEl st'.store o).members = some (done ++ markWays rid todo) := by
  intro todo
  induction todo with
  | nil =>
    intro done shapes st res st' hety hlen hmem hproc
    unfold processMembers at hproc
    injection hproc with h
    injection h with h1 h2
    subst h2
    exact hmem
  | cons m todo ih =>
    intro done shapes st res st' hety hlen hmem hproc
    unfold processMembers at hproc
    cases hc : m.mtype != "way" with
    | true =>
      simp only [hc, if_pos] at hproc
      have hmem1 : (getEl (warnSt "Multipolygon member not handled" st).store o).members
          = some ((done ++ [m]) ++ todo) := by
        rw [← List.append_cons]
        exact hmem
      have hres := ih (done ++ [m]) shapes
        (warnSt "Multipolygon member not handled" st) res st' hety hlen hmem1 hproc
      unfold markWays
      rw [if_pos hc, List.append_cons]
      exact hres
    | false =>
      simp only [hc, Bool.false_eq_true, if_false] at hproc
      have hm : m.mtype = "way" := by
        have := hc
        simp only [bne_eq_false_iff_eq] at this
        exact this
      cases hres : way_to_shape K cfg ak? pf? false fuel
          ({ m with used := some rid } : MemberRec).toEl
          (writeMembers (some o)
            ((done ++ [{ m with used := some rid }]) ++ todo) st) with
      | error e =>
        rw [hres] at hproc
        exact absurd hproc (by simp)
      | ok v =>
        obtain ⟨v0, st2⟩ := v
        have hwrite : (writeMembers (some o)
            ((done ++ [{ m with used := some rid }]) ++ todo) st).store
            = st.store.set o { getEl st.store o with
                members := some ((done ++ [{ m with used := some rid }]) ++ todo) } := rfl
        have hlen1 : o < (writeMembers (some o)
            ((done ++ [{ m with used := some rid }]) ++ todo) st).store.length := by
          rw [hwrite, List.length_set]
          exact hlen
        have hslot1 : getEl (writeMembers (some o)
            ((done ++ [{ m with used := some rid }]) ++ todo) st).store o
            = { getEl st.store o with
                members := some ((done ++ [{ m with used := some rid }]) ++ todo) } := by
          rw [hwrite]
          exact getEl_set_self st.store o _ hlen
        have hety1 : (getEl (writeMembers (some o)
            ((done ++ [{ m with used := some rid }]) ++ todo) st).store o).etype
            = "relation" := by
          rw [hslot1]
          exact hety
        have htouch := way_touch K cfg ak? pf? false fuel
          ({ m with used := some rid } : MemberRec).toEl
          (writeMembers (some o)
            ((done ++ [{ m with used := some rid }]) ++ todo) st) o
          (by
            show m.mtype ≠ "relation"
            rw [hm]
            intro hcon
            exact absurd hcon (by decide))
          hety1
        rw [hres] at htouch
        simp only [stOf] at htouch
        have hskel := way_skel K cfg ak? pf? false fuel
          ({ m with used := some rid } : MemberRec).toEl
          (writeMembers (some o)
            ((done ++ [{ m with used := some rid }]) ++ todo) st)
        rw [hres] at hskel
        simp only [stOf] at hskel
        have hlen2 : o < st2.store.length := by
          rw [← hskel.length_eq]
          exact hlen1
        have hslot2 : getEl st2.store o
            = { getEl st.store o with
                members := some ((done ++ [{ m with used := some rid }]) ++ todo) } := by
          rw [htouch]
          exact hslot1
        have hety2 : (getEl st2.store o).etype = "relation" := by
          rw [hslot2]
          exact hety
        have hmem2 : (getEl st2.store o).members
            = some ((done ++ [{ m with used := some rid }]) ++ todo) := by
          rw [hslot2]
        cases v0 with
        | none =>
          rw [hres] at hproc
          simp only [Bool.false_eq_true, if_false] at hproc
          have hety2w : (getEl (warnSt "Failed to make way in relation" st2).store o).etype
              = "relation" := hety2
          have hlen2w : o < (warnSt "Failed to make way in relation" st2).store.length := hlen2
          have hmem2w : (getEl (warnSt "Failed to make way in relation" st2).store o).members
              = some ((done ++ [{ m with used := some rid }]) ++ todo) := hmem2
          have hfin := ih (done ++ [{ m with used := some rid }]) shapes
            (warnSt "Failed to make way in relation" st2) res st' hety2w hlen2w hmem2w hproc
          unfold markWays
          rw [if_neg (by rw [hc]; intro hcon; exact absurd hcon (by decide)),
            List.append_cons]
          exact hfin
        | some ws =>
          simp only [hres] at hproc
          cases hrole : m.role with
          | none =>
            simp only [hrole] at hproc
            exact absurd hproc (by simp)
          | some role =>
            simp only [hrole] at hproc
            cases href : m.ref with
            | none =>
              simp only [href] at hproc
              exact absurd hproc (by simp)
            | some r =>
              simp only [href] at hproc
              rw [← hrole, ← href] at hproc
              have hfin := ih (done ++ [{ m with used := some rid }])
                (shapes ++ [(role, toLinePart ws.shape, r)]) st2 res st'
                hety2 hlen2 hmem2 hproc
              unfold markWays
              rw [if_neg (by rw [hc]; intro hcon; exact absurd hcon (by decide)),
                List.append_cons]
              exact hfin

/-- A non-strict way conversion that builds its coordinates from a node
list marks every referenced node used by the way id. -/
theorem way_marks_nodes (K : Kernel) (cfg : Config) (ak? : Option AreaKeys)
    (pf? : Option PolyFeatures) (fuel : Nat) (way : OsmEl) (st : St)
    (ns : List Int) (wid : Int) (sh : ShapeRec) (st' : St)
    (hcen : way.center = none) (hgeo : geomSource way = none)
    (hns : nodesSource way = some ns) (hid : way.id = some wid)
    (hres : way_to_shape K cfg ak? pf? false (fuel + 1) way st = .ok (some sh, st')) :
    ∀ r ∈ ns, ∃ j, lookupIdx "node" r st'.store = some j ∧
      (getEl st'.store j).used = some wid := by
  unfold way_to_shape at hres
  simp only [hcen, hgeo, hns, hid] at hres
  cases hrn : resolveNodes false (some wid) ns [] st with
  | error e =>
    simp only [hrn] at hres
    exact absurd hres (by simp)
  | ok v =>
    obtain ⟨v0, st1⟩ := v
    cases v0 with
    | none =>
      simp only [hrn, Except.ok.injEq, Prod.mk.injEq] at hres
      exact absurd hres.1 (by simp)
    | some coords =>
      simp only [hrn] at hres
      have hstore : st'.store = st1.store := by
        have hws := wayFinish_store K cfg ak? pf? false way coords st1
        rw [hres] at hws
        exact hws
      rw [hstore]
      exact resolveNodes_marks wid ns [] st coords st1 hrn

/-- Concrete way member with inline geometry for exercising the member
loop. -/
def mwC9 : MemberRec :=
  { mtype := "way", ref := some 10, role := some "outer",
    geometry := some [{ lon := 0, lat := 0 }, { lon := 1, lat := 1 }] }

/-- Concrete relation owning `mwC9`. -/
def relC9 : OsmEl := { etype := "relation", id := some 100, members := some [mwC9] }

/-- Store holding just the relation, before the member loop. -/
def stC9m : St := ⟨[relC9], []⟩

/-- Concrete node and way for exercising node resolution. -/
def ndC9 : OsmEl := { etype := "node", id := some 1, lon := some 0, lat := some 0 }

/-- Concrete way referencing `ndC9` twice by id. -/
def wyC9 : OsmEl := { etype := "way", id := some 10, nodes := some [1, 1] }

/-- Store holding the node and the way, before the way conversion. -/
def stC9n : St := ⟨[ndC9, wyC9], []⟩

/-- The member `mwC9` after consumption by relation 100. -/
def mwC9u : MemberRec := { mwC9 with used := some 100 }

/-- Result value of the concrete member loop run. -/
def resC9 : List (RoleShape Geo) × List MemberRec :=
  ([("outer", Geo.lineString [{ lon := 0, lat := 0 }, { lon := 1, lat := 1 }], 10)],
   [mwC9u])

/-- Final state of the concrete member loop run: the relation's member
record carries the new used mark. -/
def stC9m' : St := ⟨[{ relC9 with members := some [mwC9u] }], []⟩

/-- Shape produced by the concrete way conversion. -/
def shC9 : ShapeRec :=
  ⟨.lineString [{ lon := 0, lat := 0 }, { lon := 0, lat := 0 }],
   get_element_props wyC9⟩

/-- Final state of the concrete way conversion: the node element
carries the new used mark. -/
def stC9n' : St := ⟨[{ ndC9 with used := some 10 }, wyC9], []⟩

/-- C9: the conversion mutates its input element graph rather than
keeping a side map: a successful non-strict member loop of an area
relation rewrites the owner relation's member records so that every
way-typed member gains `used` set to the relation id, and a successful
non-strict way conversion from a node list marks every referenced node
element with `used` set to the way id. -/
theorem c9_conversion_mutates_input :
    (∀ (K : Kernel) (cfg : Config) (ak? : Option AreaKeys) (pf? : Option PolyFeatures)
       (fuel : Nat) (rid : Int) (o : Nat) (ms : List MemberRec)
       (shapes : List (RoleShape Geo)) (st : St)
       (res : List (RoleShape Geo) × List MemberRec) (st' : St),
       (getEl st.store o).etype = "relation" →
       o < st.store.length →
       (getEl st.store o).members = some ms →
       processMembers K cfg ak? pf? false fuel (some rid) (some o) ms [] shapes st
         = .ok (res, st') →
       (getEl st'.store o).members = some (markWays rid ms))
    ∧
    (∀ (K : Kernel) (cfg : Config) (ak? : Option AreaKeys) (pf? : Option PolyFeatures)
       (fuel : Nat) (way : OsmEl) (st : St) (ns : List Int) (wid : Int)
       (sh : ShapeRec) (st' : St),
       way.center = none → geomSource way = none → nodesSource way = some ns →
       way.id = some wid →
       way_to_shape K cfg ak? pf? false (fuel + 1) way st = .ok (some sh, st') →
       ∀ r ∈ ns, ∃ j, lookupIdx "node" r st'.store = some j ∧
         (getEl st'.store j).used = some wid) := by
  constructor
  · intro K cfg ak? pf? fuel rid o ms shapes st res st' hety hlen hmem hproc
    have h := processMembers_marks K cfg ak? pf? fuel rid o ms [] shapes st res st'
      hety hlen (by rw [List.nil_append]; exact hmem) hproc
    rw [List.nil_append] at h
    exact h
  · intro K cfg ak? pf? fuel way st ns wid sh st' hcen hgeo hns hid hres
    exact way_marks_nodes K cfg ak? pf? fuel way st ns wid sh st' hcen hgeo hns hid hres

/-- Witness for C9 at concrete inputs: the relation's way member gains
`used = 100` and the way's node gains `used = 10`. -/
theorem c9_conversion_mutates_input_witness :
    (getEl stC9m'.store 0).members = some (markWays 100 [mwC9])
    ∧ (∃ j, lookupIdx "node" (1 : Int) stC9n'.store = some j
        ∧ (getEl stC9n'.store j).used = some 10) := by
  constructor
  · exact c9_conversion_mutates_input.1 K0 cfg0 none none 1 100 0 [mwC9] [] stC9m
      resC9 stC9m' (by decide) (by decide) (by decide) (by decide)
  · exact c9_conversion_mutates_input.2 K0 cfg0 none none 0 wyC9 stC9n [1, 1] 10
      shC9 stC9n' (by decide) (by decide) (by decide) (by decide) (by decide) 1 (by decide)

/-- Well-formedness of a document element under which the non-strict
conversion cannot raise: an id is present; a node carries lon and lat;
a way has no present-but-empty geometry or node list and either some
coordinate source or no ref indirection. -/
def wfEl (el : OsmEl) : Bool :=
  el.id.isSome &&
  (el.etype != "node" || (el.lon.isSome && el.lat.isSome)) &&
  (el.etype != "way" ||
    (el.geometry != some [] && el.nodes != some ([] : List Int) &&
     (el.center.isSome || (geomSource el).isSome || (nodesSource el).isSome
       || el.ref == none)))

/-- Well-formedness only reads skeleton fields, so it transfers along
skeleton equality. -/
theorem wf_skel {a b : OsmEl} (h : sameSkel a b) : wfEl a = wfEl b := by
  obtain ⟨h1, h2, h3, h4, h5, h6, h7, h8, h9⟩ := h
  unfold wfEl geomSource nodesSource
  rw [h1, h2, h3, h4, h5, h6, h7, h9]

/-- Well-formedness of every store element transfers along store
skeleton equality. -/
theorem wfStore_skel {s₁ s₂ : List OsmEl} (h : SkelEq s₁ s₂)
    (hwf : ∀ el ∈ s₁, wfEl el = true) : ∀ el ∈ s₂, wfEl el = true :=
  skel_mem_transfer (fun a b hab ha => by rw [← wf_skel hab]; exact ha) h hwf

/-- A document of well-formed elements passes the eager refs-index id
check. -/
theorem refsIdxGuard_ok (doc : List OsmEl)
    (hwf : ∀ el ∈ doc, wfEl el = true) : refsIdxGuard doc = .ok () := by
  unfold refsIdxGuard
  have : doc.find? (fun el => isRefType el.etype && el.id == none) = none := by
    rw [List.find?_eq_none]
    intro el hel
    have h := hwf el hel
    unfold wfEl at h
    simp only [Bool.and_eq_true] at h
    have hid := h.1.1
    cases hidv : el.id with
    | none => rw [hidv] at hid; simp at hid
    | some i =>
      simp [hidv]
  rw [this]

/-- In non-strict mode the relation converter never raises: any inner
failure is caught and degraded to a logged None. -/
theorem relation_ok (K : Kernel) (cfg : Config) (fuel : Nat) (rel : OsmEl)
    (ownerIdx : Option Nat) (st : St) :
    ∃ v st', relation_to_shape K cfg false (fuel + 1) rel ownerIdx st = .ok (v, st') := by
  unfold relation_to_shape
  cases hc : rel.center with
  | some c =>
    exact ⟨some ⟨.point c, get_element_props rel⟩, st, rfl⟩
  | none =>
    cases hinner :
        (match is_geometry_polygon cfg none none rel with
         | .error e => .error (e, st)
         | .ok true =>
           multipolygon_relation_to_shape K cfg none none false fuel rel ownerIdx st
         | .ok false =>
           multiline_realation_to_shape K cfg none none false fuel rel ownerIdx st :
          EResult (Option ShapeRec)) with
    | ok r =>
      obtain ⟨v, st'⟩ := r
      exact ⟨v, st', by simp only [hinner]⟩
    | error e =>
      obtain ⟨msg, stE⟩ := e
      refine ⟨none, warnSt ("Failed to convert relation to shape: " ++ msg) stE, ?_⟩
      simp only [hinner]
      rw [if_neg (by decide)]

/-- A multipolygon assembly that yields a shape attaches the relation's
own properties. -/
theorem mpWithMembers_props (K : Kernel) (cfg : Config) (ak? : Option AreaKeys)
    (pf? : Option PolyFeatures) (raiseOn : Bool) (fuel : Nat) (rel : OsmEl)
    (mOwner : Option Nat) (ms : List MemberRec) (st : St) (s : ShapeRec) (st' : St)
    (h : mpWithMembers K cfg ak? pf? raiseOn fuel rel mOwner ms st = .ok (some s, st')) :
    s.properties = get_element_props rel := by
  unfold mpWithMembers at h
  split at h
  · exact absurd h (by simp)
  · split at h
    · exact absurd h (by simp)
    · rw [show ∀ st0 : St, warnFail raiseOn
          "Failed to convert computed shapes to multipolygon" none st0
          = (if raiseOn then
              .error ("Failed to convert computed shapes to multipolygon",
                warnSt "Failed to convert computed shapes to multipolygon" st0)
            else .ok (none,
              warnSt "Failed to convert computed shapes to multipolygon" st0))
          from fun _ => rfl] at h
      split at h
      · exact absurd h (by simp)
      · exact absurd h (by simp)
    · split at h
      · exact absurd h (by simp)
      · split at h
        · exact absurd h (by simp)
        · injection h with h1
          injection h1 with h2 h3
          injection h2 with h4
          rw [← h4]

/-- A multipolygon relation conversion that yields a shape attaches the
relation's own properties. -/
theorem multipolygon_props (K : Kernel) (cfg : Config) (ak? : Option AreaKeys)
    (pf? : Option PolyFeatures) (raiseOn : Bool) (fuel : Nat) (rel : OsmEl)
    (ownerIdx : Option Nat) (st : St) (s : ShapeRec) (st' : St)
    (h : multipolygon_relation_to_shape K cfg ak? pf? raiseOn fuel rel ownerIdx st
      = .ok (some s, st')) :
    s.properties = get_element_props rel := by
  unfold multipolygon_relation_to_shape at h
  split at h
  · exact mpWithMembers_props K cfg ak? pf? raiseOn fuel rel ownerIdx _ st s st' h
  · split at h
    · exact absurd h (by simp)
    · split at h
      · split at h
        · exact absurd h (by simp)
        · exact absurd h (by simp)
      · split at h
        · exact absurd h (by simp)
        · exact mpWithMembers_props K cfg ak? pf? raiseOn fuel rel _ _ st s st' h

/-- A multiline member-merge that yields a shape attaches the relation's
own properties. -/
theorem mlRun_props (K : Kernel) (cfg : Config) (ak? : Option AreaKeys)
    (pf? : Option PolyFeatures) (raiseOn : Bool) (fuel : Nat) (rel : OsmEl)
    (ms : List MemberRec) (st : St) (s : ShapeRec) (st' : St)
    (h : mlRun K cfg ak? pf? raiseOn (fuel + 1) rel ms st = .ok (some s, st')) :
    s.properties = get_element_props rel := by
  unfold mlRun at h
  split at h
  · exact absurd h (by simp)
  · split at h
    · simp only [warnFail] at h
      split at h
      · exact absurd h (by simp)
      · exact absurd h (by simp)
    · split at h
      · exact absurd h (by simp)
      · injection h with h1
        injection h1 with h2 h3
        injection h2 with h4
        rw [← h4]

/-- A multiline relation conversion that yields a shape attaches the
relation's own properties. -/
theorem multiline_props (K : Kernel) (cfg : Config) (ak? : Option AreaKeys)
    (pf? : Option PolyFeatures) (raiseOn : Bool) (fuel : Nat) (rel : OsmEl)
    (ownerIdx : Option Nat) (st : St) (s : ShapeRec) (st' : St)
    (h : multiline_realation_to_shape K cfg ak? pf? raiseOn (fuel + 1) rel ownerIdx st
      = .ok (some s, st')) :
    s.properties = get_element_props rel := by
  unfold multiline_realation_to_shape at h
  split at h
  · rename_i ms hms
    cases fuel with
    | zero =>
      unfold mlRun at h
      exact absurd h (by simp)
    | succ f => exact mlRun_props K cfg ak? pf? raiseOn f rel ms st s st' h
  · split at h
    · exact absurd h (by simp)
    · split at h
      · split at h
        · exact absurd h (by simp)
        · exact absurd h (by simp)
      · split at h
        · exact absurd h (by simp)
        · rename_i ms hms
          cases fuel with
          | zero =>
            unfold mlRun at h
            exact absurd h (by simp)
          | succ f => exact mlRun_props K cfg ak? pf? raiseOn f rel ms st s st' h

/-- A relation conversion that yields a shape attaches the relation's
own properties. -/
theorem relation_props (K : Kernel) (cfg : Config) (raiseOn : Bool) (fuel : Nat)
    (rel : OsmEl) (ownerIdx : Option Nat) (st : St) (s : ShapeRec) (st' : St)
    (h : relation_to_shape K cfg raiseOn (fuel + 1) rel ownerIdx st = .ok (some s, st')) :
    s.properties = get_element_props rel := by
  unfold relation_to_shape at h
  split at h
  · injection h with h1
    injection h1 with h2 h3
    injection h2 with h4
    rw [← h4]
  · cases hinner :
        (match is_geometry_polygon cfg none none rel with
         | .error e => .error (e, st)
         | .ok true =>
           multipolygon_relation_to_shape K cfg none none raiseOn fuel rel ownerIdx st
         | .ok false =>
           multiline_realation_to_shape K cfg none none raiseOn fuel rel ownerIdx st :
          EResult (Option ShapeRec)) with
    | ok r =>
      rw [hinner] at h
      obtain ⟨v, stv⟩ := r
      injection h with h1
      injection h1 with h2 h3
      subst h2
      cases higp : is_geometry_polygon cfg none none rel with
      | error e =>
        rw [higp] at hinner
        exact absurd hinner (by simp)
      | ok b =>
        rw [higp] at hinner
        cases b with
        | true =>
          exact multipolygon_props K cfg none none raiseOn fuel rel ownerIdx st s stv hinner
        | false =>
          cases fuel with
          | zero =>
            unfold multiline_realation_to_shape at hinner
            exact absurd hinner (by simp)
          | succ f =>
            exact multiline_props K cfg none none raiseOn f rel ownerIdx st s stv hinner
    | error e =>
      rw [hinner] at h
      obtain ⟨msg, stE⟩ := e
      split at h
      · rename_i r heq
        exact absurd heq (by simp)
      · split at h
        · exact absurd h (by simp)
        · exact absurd h (by simp)


/-- The rule-table step never raises on an element that has tags. -/
theorem igpRuleStep_ok (cfg : Config) (ak? : Option AreaKeys)
    (pf? : Option PolyFeatures) (el : OsmEl) (ts ts0 : Tags)
    (htags : el.tags = some ts0) :
    ∃ b, igpRuleStep cfg ak? pf? el ts = .ok b := by
  have hexc : is_exception cfg ak? el
      = .ok (isExceptionGo (resolveAK ak? cfg.defAK) ts0 ts0) := by
    unfold is_exception
    rw [htags]
  unfold igpRuleStep
  simp only [hexc]
  split
  · exact ⟨_, rfl⟩
  · exact ⟨false, rfl⟩

/-- The post-geometry step never raises on an element with tags and no
present-but-empty node list. -/
theorem igpAfterGeom_ok (cfg : Config) (ak? : Option AreaKeys)
    (pf? : Option PolyFeatures) (el : OsmEl) (ts ts0 : Tags)
    (htags : el.tags = some ts0) (hnodes : el.nodes ≠ some []) :
    ∃ b, igpAfterGeom cfg ak? pf? el ts = .ok b := by
  cases hn : el.nodes with
  | none =>
    unfold igpAfterGeom
    simp only [hn]
    exact igpRuleStep_ok cfg ak? pf? el ts ts0 htags
  | some ns =>
    cases ns with
    | nil => exact absurd hn hnodes
    | cons n0 rest =>
      unfold igpAfterGeom
      cases hl : (n0 :: rest).getLast? with
      | none =>
        have hlast : ((n0 :: rest).getLast?).isSome := by
          rw [List.getLast?_isSome]
          simp
        rw [hl] at hlast
        simp at hlast
      | some n1 =>
        simp only [hn, List.head?_cons, hl]
        split
        · exact ⟨false, rfl⟩
        · exact igpRuleStep_ok cfg ak? pf? el ts ts0 htags

/-- The polygon classifier never raises on an element with no
present-but-empty geometry or node list. -/
theorem is_geometry_polygon_ok (cfg : Config) (ak? : Option AreaKeys)
    (pf? : Option PolyFeatures) (el : OsmEl)
    (hgeo : el.geometry ≠ some []) (hnodes : el.nodes ≠ some []) :
    ∃ b, is_geometry_polygon cfg ak? pf? el = .ok b := by
  cases htags : el.tags with
  | none =>
    refine ⟨false, ?_⟩
    unfold is_geometry_polygon
    rw [htags]
  | some ts =>
    unfold is_geometry_polygon
    simp only [htags]
    split
    · exact ⟨false, rfl⟩
    · split
      · exact ⟨true, rfl⟩
      · split
        · exact ⟨true, rfl⟩
        · cases hg : el.geometry with
          | none =>
            simp only [hg]
            exact igpAfterGeom_ok cfg ak? pf? el ts ts htags hnodes
          | some g =>
            cases g with
            | nil => exact absurd hg hgeo
            | cons c0 grest =>
              cases hl : (c0 :: grest).getLast? with
              | none =>
                have hlast : ((c0 :: grest).getLast?).isSome := by
                  rw [List.getLast?_isSome]
                  simp
                rw [hl] at hlast
                simp at hlast
              | some c1 =>
                simp only [hg, List.head?_cons, hl]
                split
                · exact ⟨false, rfl⟩
                · exact igpAfterGeom_ok cfg ak? pf? el ts ts htags hnodes

/-- Unpacking well-formedness for a node-typed element. -/
theorem wfEl_node {el : OsmEl} (hnt : el.etype = "node") (hwf : wfEl el = true) :
    el.lon.isSome = true ∧ el.lat.isSome = true := by
  unfold wfEl at hwf
  simp only [Bool.and_eq_true, Bool.or_eq_true] at hwf
  obtain ⟨⟨_, hnode⟩, _⟩ := hwf
  cases hnode with
  | inl h => rw [hnt] at h; simp at h
  | inr h => exact h

/-- Unpacking well-formedness for a way-typed element. -/
theorem wfEl_way {way : OsmEl} (hwt : way.etype = "way") (hwf : wfEl way = true) :
    way.id.isSome = true ∧ way.geometry ≠ some [] ∧ way.nodes ≠ some [] ∧
    (way.center.isSome = true ∨ (geomSource way).isSome = true ∨
     (nodesSource way).isSome = true ∨ way.ref = none) := by
  unfold wfEl at hwf
  simp only [Bool.and_eq_true, Bool.or_eq_true] at hwf
  obtain ⟨⟨hid, _⟩, hway⟩ := hwf
  cases hway with
  | inl h => rw [hwt] at h; simp at h
  | inr h =>
    obtain ⟨⟨hg, hn⟩, hsrc⟩ := h
    refine ⟨hid, ?_, ?_, ?_⟩
    · intro hcon
      rw [hcon] at hg
      simp at hg
    · intro hcon
      rw [hcon] at hn
      simp at hn
    · rcases hsrc with ((h | h) | h) | h
      · exact Or.inl h
      · exact Or.inr (Or.inl h)
      · exact Or.inr (Or.inr (Or.inl h))
      · exact Or.inr (Or.inr (Or.inr (by simpa using h)))

/-- A store element is a member of the store. -/
theorem getEl_mem {store : List OsmEl} {j : Nat} (h : j < store.length) :
    getEl store j ∈ store := by
  unfold getEl
  rw [List.getD_eq_getElem store dummyEl h]
  exact List.getElem_mem h

/-- The way-finishing tail never raises in non-strict mode on a way
with no present-but-empty geometry or node list, and any produced shape
carries the way's own properties. -/
theorem wayFinish_ok (K : Kernel) (cfg : Config) (ak? : Option AreaKeys)
    (pf? : Option PolyFeatures) (way : OsmEl) (coords : List Coord) (st : St)
    (hgeo : way.geometry ≠ some []) (hnodes : way.nodes ≠ some []) :
    ∃ v st1, wayFinish K cfg ak? pf? false way coords st = .ok (v, st1) ∧
      ∀ s, v = some s → s.properties = get_element_props way := by
  unfold wayFinish
  split
  · exact ⟨none, warnSt "Not found coords for way" st, rfl,
      fun s h => absurd h (by simp)⟩
  · obtain ⟨b, hb⟩ := is_geometry_polygon_ok cfg ak? pf? way hgeo hnodes
    cases b with
    | true =>
      cases hmk : K.mkPolygon coords with
      | some poly =>
        simp only [hb, hmk]
        exact ⟨some ⟨fix_invalid_polygon K poly, get_element_props way⟩, st, rfl,
          fun s h => by injection h with h1; rw [← h1]⟩
      | none =>
        simp only [hb, hmk]
        exact ⟨none, warnSt "Failed to generate polygon from way" st, rfl,
          fun s h => absurd h (by simp)⟩
    | false =>
      simp only [hb]
      exact ⟨some ⟨.lineString coords, get_element_props way⟩, st, rfl,
        fun s h => by injection h with h1; rw [← h1]⟩

/-- Node resolution never raises in non-strict mode over a well-formed
store when the way id is present. -/
theorem resolveNodes_ok (wid : Int) :
    ∀ (ns : List Int) (acc : List Coord) (st : St),
      (∀ el ∈ st.store, wfEl el = true) →
      ∃ v st1, resolveNodes false (some wid) ns acc st = .ok (v, st1) := by
  intro ns
  induction ns with
  | nil => intro acc st _; exact ⟨some acc, st, rfl⟩
  | cons r rest ih =>
    intro acc st hst
    unfold resolveNodes
    cases hl : lookupIdx "node" r st.store with
    | none =>
      simp only [hl]
      exact ⟨none, warnSt "Node not found in index" st, rfl⟩
    | some j =>
      have hspec := lookupIdx_spec hl
      have hwfj := hst (getEl st.store j) (getEl_mem hspec.1)
      have hll := wfEl_node hspec.2.1 hwfj
      obtain ⟨lo, hlo⟩ := Option.isSome_iff_exists.mp hll.1
      obtain ⟨la, hla⟩ := Option.isSome_iff_exists.mp hll.2
      simp only [hl, hlo, hla]
      exact ih (acc ++ [{ lon := lo, lat := la }])
        ⟨setUsedAt st.store j wid, st.diags⟩
        (wfStore_skel (SkelEq_setUsedAt st.store j wid) hst)

/-- The way conversion never raises in non-strict mode on a well-formed
way over a well-formed store, and any produced shape carries the way's
own properties. -/
theorem way_ok (K : Kernel) (cfg : Config) (ak? : Option AreaKeys)
    (pf? : Option PolyFeatures) (fuel : Nat) (way : OsmEl) (st : St)
    (hwt : way.etype = "way") (hwf : wfEl way = true)
    (hst : ∀ el ∈ st.store, wfEl el = true) :
    ∃ v st1, way_to_shape K cfg ak? pf? false (fuel + 1) way st = .ok (v, st1) ∧
      ∀ s, v = some s → s.properties = get_element_props way := by
  obtain ⟨hid, hgeo, hnodes, hsrc⟩ := wfEl_way hwt hwf
  unfold way_to_shape
  cases hc : way.center with
  | some c =>
    simp only [hc]
    exact ⟨some ⟨.point c, get_element_props way⟩, st, rfl,
      fun s h => by injection h with h1; rw [← h1]⟩
  | none =>
    cases hg : geomSource way with
    | some g =>
      simp only [hc, hg]
      exact wayFinish_ok K cfg ak? pf? way g st hgeo hnodes
    | none =>
      cases hn : nodesSource way with
      | some ns =>
        obtain ⟨wid, hwid⟩ := Option.isSome_iff_exists.mp hid
        obtain ⟨v, st1, hres⟩ := resolveNodes_ok wid ns [] st hst
        cases v with
        | none =>
          simp only [hc, hg, hn, hwid, hres]
          exact ⟨none, st1, rfl, fun s h => absurd h (by simp)⟩
        | some coords =>
          simp only [hc, hg, hn, hwid, hres]
          exact wayFinish_ok K cfg ak? pf? way coords st1 hgeo hnodes
      | none =>
        have href : way.ref = none := by
          rcases hsrc with h | h | h | h
          · rw [hc] at h; simp at h
          · rw [hg] at h; simp at h
          · rw [hn] at h; simp at h
          · exact h
        simp only [hc, hg, hn, href]
        exact ⟨none, warnSt "Relation has way without nodes" st, rfl,
          fun s h => absurd h (by simp)⟩

/-- A well-formed element has an id. -/
theorem wfEl_id {el : OsmEl} (hwf : wfEl el = true) : el.id.isSome = true := by
  unfold wfEl at hwf
  simp only [Bool.and_eq_true] at hwf
  exact hwf.1.1

/-- The element dispatcher never raises in non-strict mode on a
well-formed element over a well-formed store, and any produced shape
carries the element's id in its properties. -/
theorem element_ok (K : Kernel) (cfg : Config) (ak? : Option AreaKeys)
    (pf? : Option PolyFeatures) (fuel : Nat) (el : OsmEl) (oi : Option Nat)
    (st : St) (hwf : wfEl el = true) (hst : ∀ e ∈ st.store, wfEl e = true) :
    ∃ v st1, element_to_shape K cfg ak? pf? false (fuel + 2) el oi st = .ok (v, st1) ∧
      ∀ s, v = some s → s.properties.id = el.id := by
  unfold element_to_shape
  cases hq1 : el.etype == "node" with
  | true =>
    have hnt : el.etype = "node" := eq_of_beq hq1
    obtain ⟨hlo0, hla0⟩ := wfEl_node hnt hwf
    obtain ⟨lo, hlo⟩ := Option.isSome_iff_exists.mp hlo0
    obtain ⟨la, hla⟩ := Option.isSome_iff_exists.mp hla0
    rw [if_pos rfl]
    unfold node_to_shape
    simp only [hlo, hla]
    exact ⟨some ⟨.point ⟨lo, la⟩, get_element_props el⟩, st, rfl,
      fun s h => by injection h with h1; rw [← h1]; rfl⟩
  | false =>
    simp only [hq1, Bool.false_eq_true, if_false]
    cases hq2 : el.etype == "way" with
    | true =>
      have hwt : el.etype = "way" := eq_of_beq hq2
      rw [if_pos rfl]
      obtain ⟨v, st1, hres, hprop⟩ := way_ok K cfg ak? pf? fuel el st hwt hwf hst
      exact ⟨v, st1, hres, fun s h => by rw [hprop s h]; rfl⟩
    | false =>
      simp only [hq2, Bool.false_eq_true, if_false]
      cases hq3 : el.etype == "relation" with
      | true =>
        rw [if_pos rfl]
        obtain ⟨v, st1, hres⟩ := relation_ok K cfg fuel el oi st
        cases v with
        | none => exact ⟨none, st1, hres, fun s h => absurd h (by simp)⟩
        | some s =>
          have hprop := relation_props K cfg false fuel el oi st s st1 hres
          exact ⟨some s, st1, hres,
            fun s' h => by injection h with h1; rw [← h1, hprop]; rfl⟩
      | false =>
        simp only [hq3, Bool.false_eq_true, if_false]
        exact ⟨none, warnSt "Failed to convert element to shape" st, rfl,
          fun s h => absurd h (by simp)⟩

/-- The conversion loop never raises in non-strict mode over a
well-formed store with in-range indices; the collected shapes all keep
an id in their properties and the store skeleton is preserved. -/
theorem convLoop_ok (K : Kernel) (cfg : Config) (ak? : Option AreaKeys)
    (pf? : Option PolyFeatures) (fuel : Nat) :
    ∀ (idxs : List Nat) (shapes : List ShapeRec) (st : St),
      (∀ e ∈ st.store, wfEl e = true) →
      (∀ i ∈ idxs, i < st.store.length) →
      (∀ s ∈ shapes, s.properties.id.isSome = true) →
      ∃ l st', convLoop K cfg ak? pf? false (fuel + 2) idxs shapes st = .ok (l, st')
        ∧ (∀ s ∈ l, s.properties.id.isSome = true)
        ∧ SkelEq st.store st'.store := by
  intro idxs
  induction idxs with
  | nil =>
    intro shapes st hst hidx hsh
    exact ⟨shapes, st, rfl, hsh, SkelEq.refl _⟩
  | cons i rest ih =>
    intro shapes st hst hidx hsh
    have hwfi := hst (getEl st.store i) (getEl_mem (hidx i (List.mem_cons_self i rest)))
    obtain ⟨v, st1, hres, hprop⟩ :=
      element_ok K cfg ak? pf? fuel (getEl st.store i) (some i) st hwfi hst
    have hskel : SkelEq st.store st1.store := by
      have h := (convert_skel (fuel + 2) K cfg ak? pf? false).1 (getEl st.store i) (some i) st
      rw [hres] at h
      simpa only [stOf] using h
    have hst1 := wfStore_skel hskel hst
    have hidx1 : ∀ j ∈ rest, j < st1.store.length := by
      intro j hj
      rw [← hskel.length_eq]
      exact hidx j (List.mem_cons_of_mem i hj)
    simp only [convLoop]
    cases v with
    | some s =>
      simp only [hres]
      have hsh1 : ∀ s' ∈ shapes ++ [s], s'.properties.id.isSome = true := by
        intro s' hs'
        rcases List.mem_append.mp hs' with h | h
        · exact hsh s' h
        · have : s' = s := by simpa using h
          rw [this, hprop s rfl]
          exact wfEl_id hwfi
      obtain ⟨l, st', hloop, hl, hskel2⟩ := ih (shapes ++ [s]) st1 hst1 hidx1 hsh1
      exact ⟨l, st', hloop, hl, SkelEq.trans hskel hskel2⟩
    | none =>
      obtain ⟨eid, heid⟩ := Option.isSome_iff_exists.mp (wfEl_id hwfi)
      simp only [hres, heid]
      have hstw : ∀ e ∈ (warnSt "Element not converted" st1).store, wfEl e = true := hst1
      have hidxw : ∀ j ∈ rest, j < (warnSt "Element not converted" st1).store.length := hidx1
      obtain ⟨l, st', hloop, hl, hskel2⟩ :=
        ih shapes (warnSt "Element not converted" st1) hstw hidxw hsh
      refine ⟨l, st', hloop, hl, ?_⟩
      exact SkelEq.trans hskel hskel2

/-- The used map never raises over a well-formed store. -/
theorem usedEntries_ok :
    ∀ (store : List OsmEl), (∀ e ∈ store, wfEl e = true) →
      ∃ ks, usedEntries store = .ok ks := by
  intro store
  induction store with
  | nil => intro _; exact ⟨[], rfl⟩
  | cons el rest ih =>
    intro hst
    obtain ⟨ks, hks⟩ := ih (fun e he => hst e (List.mem_cons_of_mem el he))
    unfold usedEntries
    cases hcond : isRefType el.etype && el.used.isSome with
    | true =>
      obtain ⟨i, hi⟩ := Option.isSome_iff_exists.mp
        (wfEl_id (hst el (List.mem_cons_self el rest)))
      rw [if_pos rfl]
      simp only [hi, hks]
      exact ⟨i :: ks, rfl⟩
    | false =>
      simp only [hcond, Bool.false_eq_true, if_false]
      exact ⟨ks, hks⟩

/-- The used-reference filter never raises over shapes that all carry a
properties id. -/
theorem filterShapes_ok (ks : List Int) :
    ∀ (shapes : List ShapeRec), (∀ s ∈ shapes, s.properties.id.isSome = true) →
      ∃ l, filterShapes ks shapes = .ok l := by
  intro shapes
  induction shapes with
  | nil => intro _; exact ⟨[], rfl⟩
  | cons s rest ih =>
    intro hsh
    obtain ⟨l, hl⟩ := ih (fun s' hs' => hsh s' (List.mem_cons_of_mem s hs'))
    obtain ⟨i, hi⟩ := Option.isSome_iff_exists.mp
      (hsh s (List.mem_cons_self s rest))
    unfold filterShapes
    cases hc : ks.contains i with
    | true =>
      simp only [hi, hc, if_true]
      exact ⟨l, hl⟩
    | false =>
      simp only [hi, hc, Bool.false_eq_true, if_false, hl]
      exact ⟨s :: l, rfl⟩

/-- A node element lacking lon/lat, which the top-level non-strict
conversion does not survive. -/
def ndC8 : OsmEl := { etype := "node", id := some 1 }

/-- Counterexample to C8 as stated: a document whose single node lacks
lon/lat makes the non-strict top-level conversion raise a KeyError
rather than skip the element. -/
theorem c8_counterexample :
    json2shapes K0 cfg0 none none 2 [ndC8] true false
      = .error ("KeyError: lon/lat", ⟨[ndC8], []⟩) := by
  decide

/-- C8 (amended): in non-strict mode the top-level conversion returns a
best-effort shape list without raising on any document whose elements
are well-formed in the sense of `wfEl` (an id everywhere, lon/lat on
nodes, no present-but-empty way geometry or node list, and no way ref
indirection without another coordinate source); malformed elements
outside `wfEl` can still raise (see the counterexample). -/
theorem c8_nonstrict_wellformed_total
    (K : Kernel) (cfg : Config) (ak? : Option AreaKeys) (pf? : Option PolyFeatures)
    (fuel : Nat) (doc : List OsmEl) (filterUsedRefs : Bool)
    (hwf : ∀ el ∈ doc, wfEl el = true) :
    ∃ l st', json2shapes K cfg ak? pf? (fuel + 2) doc filterUsedRefs false
      = .ok (l, st') := by
  have hwf0 : ∀ e ∈ (⟨doc, []⟩ : St).store, wfEl e = true := hwf
  have hidx : ∀ i ∈ List.range doc.length, i < (⟨doc, []⟩ : St).store.length := by
    intro i hi
    exact List.mem_range.mp hi
  obtain ⟨l1, st1, hloop, hprops, hskel⟩ :=
    convLoop_ok K cfg ak? pf? fuel (List.range doc.length) [] ⟨doc, []⟩
      hwf0 hidx (by intro s h; cases h)
  unfold json2shapes
  simp only [refsIdxGuard_ok doc hwf, hloop]
  cases filterUsedRefs with
  | false => exact ⟨l1, st1, rfl⟩
  | true =>
    have hst1 := wfStore_skel hskel hwf0
    obtain ⟨ks, hks⟩ := usedEntries_ok st1.store hst1
    obtain ⟨l2, hfil⟩ := filterShapes_ok ks l1 hprops
    refine ⟨l2, st1, ?_⟩
    simp only [Bool.not_true, Bool.false_eq_true, if_false, hks, hfil]

/-- Witness for the amended C8 at a concrete well-formed document. -/
theorem c8_nonstrict_wellformed_total_witness :
    ∃ l st', json2shapes K0 cfg0 none none (0 + 2) [ndC9] true false
      = .ok (l, st') :=
  c8_nonstrict_wellformed_total K0 cfg0 none none 0 [ndC9] true (by decide)

/-- A shape whose element id appears as a key of the used map. -/
def usedShape (ks : List Int) (s : ShapeRec) : Bool :=
  match s.properties.id with
  | some i => ks.contains i
  | none => false

/-- The used-reference filter computes exactly the list filter dropping
shapes whose id is a used key. -/
theorem filterShapes_spec (ks : List Int) :
    ∀ (shapes l : List ShapeRec), filterShapes ks shapes = .ok l →
      l = shapes.filter (fun s => !(usedShape ks s)) := by
  intro shapes
  induction shapes with
  | nil =>
    intro l h
    injection h with h1
    rw [← h1]
    rfl
  | cons s rest ih =>
    intro l h
    unfold filterShapes at h
    cases hi : s.properties.id with
    | none =>
      rw [hi] at h
      exact absurd h (by simp)
    | some i =>
      cases hc : ks.contains i with
      | true =>
        simp only [hi, hc, if_true] at h
        rw [List.filter_cons_of_neg]
        · exact ih l h
        · simpa [usedShape, hi] using hc
      | false =>
        simp only [hi, hc, Bool.false_eq_true, if_false] at h
        cases hrec : filterShapes ks rest with
        | error e =>
          rw [hrec] at h
          exact absurd h (by simp)
        | ok l' =>
          rw [hrec] at h
          injection h with h1
          rw [← h1, List.filter_cons_of_pos]
          · rw [ih l' hrec]
          · simpa [usedShape, hi] using hc

/-- C6: with used-reference filtering on, a successful conversion
returns exactly the unfiltered shape list minus the shapes whose
element id is a key of the used map (the unfiltered run succeeds on the
same final state); round-trip: every unfiltered shape is either in the
filtered output or among the used shapes. -/
theorem c6_used_reference_filter
    (K : Kernel) (cfg : Config) (ak? : Option AreaKeys) (pf? : Option PolyFeatures)
    (fuel : Nat) (doc : List OsmEl) (raiseOn : Bool) (l : List ShapeRec) (st' : St)
    (h : json2shapes K cfg ak? pf? fuel doc true raiseOn = .ok (l, st')) :
    ∃ l₀ ks,
      json2shapes K cfg ak? pf? fuel doc false raiseOn = .ok (l₀, st') ∧
      usedEntries st'.store = .ok ks ∧
      l = l₀.filter (fun s => !(usedShape ks s)) ∧
      (∀ s, s ∈ l₀ ↔ s ∈ l ∨ s ∈ l₀.filter (fun s => usedShape ks s)) := by
  simp only [json2shapes] at h
  cases hg : refsIdxGuard doc with
  | error e =>
    rw [hg] at h
    exact absurd h (by simp)
  | ok u =>
    obtain ⟨⟩ := u
    rw [hg] at h
    cases hcv : convLoop K cfg ak? pf? raiseOn fuel (List.range doc.length) []
        ⟨doc, []⟩ with
    | error e =>
      rw [hcv] at h
      exact absurd h (by simp)
    | ok p =>
      obtain ⟨shapes, st1⟩ := p
      rw [hcv] at h
      simp only [Bool.not_true, Bool.false_eq_true, if_false] at h
      cases hue : usedEntries st1.store with
      | error e =>
        rw [hue] at h
        exact absurd h (by simp)
      | ok ks =>
        simp only [hue] at h
        cases hfs : filterShapes ks shapes with
        | error e =>
          simp only [hfs] at h
          exact absurd h (by simp)
        | ok lf =>
          simp only [hfs] at h
          injection h with h1
          injection h1 with h2 h3
          subst h3
          subst h2
          have hfalse : json2shapes K cfg ak? pf? fuel doc false raiseOn
              = .ok (shapes, st1) := by
            simp only [json2shapes]
            rw [hg, hcv]
            rfl
          have hl := filterShapes_spec ks shapes lf hfs
          refine ⟨shapes, ks, hfalse, hue, hl, ?_⟩
          intro s
          constructor
          · intro hs
            cases hu : usedShape ks s with
            | true =>
              exact Or.inr (List.mem_filter.mpr ⟨hs, hu⟩)
            | false =>
              refine Or.inl ?_
              rw [hl]
              exact List.mem_filter.mpr ⟨hs, by rw [hu]; rfl⟩
          · intro hs
            cases hs with
            | inl hs =>
              rw [hl] at hs
              exact (List.mem_filter.mp hs).1
            | inr hs =>
              exact (List.mem_filter.mp hs).1

/-- Output shape of the concrete single-node run. -/
def shC6 : ShapeRec := ⟨.point { lon := 0, lat := 0 }, get_element_props ndC9⟩

/-- Witness for C6 at a concrete run over one unreferenced node. -/
theorem c6_used_reference_filter_witness :
    ∃ l₀ ks,
      json2shapes K0 cfg0 none none 2 [ndC9] false false = .ok (l₀, ⟨[ndC9], []⟩) ∧
      usedEntries (⟨[ndC9], []⟩ : St).store = .ok ks ∧
      [shC6] = l₀.filter (fun s => !(usedShape ks s)) ∧
      (∀ s, s ∈ l₀ ↔ s ∈ [shC6] ∨ s ∈ l₀.filter (fun s => usedShape ks s)) :=
  c6_used_reference_filter K0 cfg0 none none 2 [ndC9] false [shC6] ⟨[ndC9], []⟩
    (by decide)
